import Mathlib

/-!
Verification of the core data model of the repository: the address layer
(src/core/address.js) and the graph layer (src/core/graph.js).

The JavaScript source stores addressable objects in plain JS objects keyed by
the string JSON.stringify(address).  The embedding models:
  - an address as a four-field record of strings;
  - JSON.stringify of an address as an explicit string construction that
    serializes the properties in insertion order (as JS does);
  - JSON.parse of a serialized address key as an explicit parser;
  - a JS object used as a string-keyed map as an association list in key
    insertion order (JS objects preserve insertion order for non-index keys);
  - lodash isEqual (deep structural equality) on stored values as Lean
    equality of the corresponding inductive data, and on whole maps as
    order-independent key-by-key comparison;
  - a thrown Error as an error result carrying the message string.
-/

/-- Four-field composite identifier, the Address type of src/core/address.js:
repository scope, owning plugin name, entity-type tag, and an opaque id. -/
structure Address where
  repositoryName : String
  pluginName : String
  type : String
  id : String
deriving DecidableEq

/-- JSON string escaping of one character, as JSON.stringify performs it on the
characters relevant here: a quote or a backslash is preceded by a backslash,
any other character stands for itself. -/
def escapeChar (c : Char) : List Char :=
  if c = '"' ∨ c = '\\' then ['\\', c] else [c]

/-- JSON string escaping of a whole character list. -/
def escapeChars (s : List Char) : List Char :=
  s.flatMap escapeChar

/-- The JSON encoding of a string: a quote, the escaped body, a quote. -/
def encString (s : String) : String :=
  "\"" ++ String.mk (escapeChars s.data) ++ "\""

/-- The comma-separated key:value chunks of JSON.stringify applied to a flat JS
object of string-valued properties, listed in insertion order. -/
def joinPairs : List (String × String) → String
  | [] => ""
  | [p] => encString p.1 ++ ":" ++ encString p.2
  | p :: q :: rest => encString p.1 ++ ":" ++ encString p.2 ++ "," ++ joinPairs (q :: rest)

/-- JSON.stringify of a flat JS object of string-valued properties, given its
property list in insertion order.  JSON.stringify serializes properties in the
order they were assigned, so the result depends on that order. -/
def stringifyPairs (ps : List (String × String)) : String :=
  "\x7b" ++ joinPairs ps ++ "\x7d"

/-- The property list of an address object whose fields were assigned in the
declaration order of the Address type. -/
def Address.jsProps (a : Address) : List (String × String) :=
  [("repositoryName", a.repositoryName), ("pluginName", a.pluginName),
   ("type", a.type), ("id", a.id)]

/-- JSON.stringify(address) for an address constructed in canonical field
order: the map key used by AddressMap.add and AddressMap.get. -/
def serializeAddress (a : Address) : String :=
  stringifyPairs a.jsProps

/-- Scan a JSON-escaped string body up to its closing quote, returning the
unescaped content and the characters after the closing quote.  This models the
string scanning JSON.parse performs on the keys produced by JSON.stringify. -/
def scanQuoted : List Char → Option (List Char × List Char)
  | [] => none
  | c :: rest =>
    if c = '"' then some ([], rest)
    else if c = '\\' then
      match rest with
      | [] => none
      | d :: rest2 => (scanQuoted rest2).map (fun p => (d :: p.1, p.2))
    else (scanQuoted rest).map (fun p => (c :: p.1, p.2))

/-- Consume an expected literal prefix, returning the remainder. -/
def expectLit : List Char → List Char → Option (List Char)
  | [], s => some s
  | _ :: _, [] => none
  | c :: cs, d :: ds => if c = d then expectLit cs ds else none

/-- Parse one quoted JSON string that must be preceded by the given literal. -/
def parseLitString (pre : String) (s : List Char) : Option (String × List Char) :=
  match expectLit pre.data s with
  | none => none
  | some r =>
    match scanQuoted r with
    | none => none
    | some (content, rest) => some (String.mk content, rest)

/-- Literal preceding the first field of a serialized address. -/
def preRepo : String := "\x7b\"repositoryName\":\""

/-- Literal preceding the second field of a serialized address. -/
def prePlugin : String := ",\"pluginName\":\""

/-- Literal preceding the third field of a serialized address. -/
def preType : String := ",\"type\":\""

/-- Literal preceding the fourth field of a serialized address. -/
def preId : String := ",\"id\":\""

/-- JSON.parse specialized to the serialized address keys produced by
serializeAddress: reconstructs the four-field address from the key, as
AddressMap.fromJSON does with JSON.parse(key). -/
def parseAddress (s : String) : Option Address :=
  match parseLitString preRepo s.data with
  | none => none
  | some (rn, r1) =>
  match parseLitString prePlugin r1 with
  | none => none
  | some (pn, r2) =>
  match parseLitString preType r2 with
  | none => none
  | some (ty, r3) =>
  match parseLitString preId r3 with
  | none => none
  | some (idv, r4) =>
    if r4 = ['\x7d'] then some ⟨rn, pn, ty, idv⟩ else none

/-- A JS object used as a string-keyed map, modelled as an association list in
key insertion order.  Property assignment replaces in place when the key is
present and appends otherwise, as JS assignment does. -/
def jsObjSet {V : Type} (m : List (String × V)) (k : String) (v : V) :
    List (String × V) :=
  if m.any (fun p => p.1 == k) then
    m.map (fun p => if p.1 = k then (k, v) else p)
  else m ++ [(k, v)]

/-- Property lookup on a JS object used as a map: the value stored at the
key, if present. -/
def jsObjGet {V : Type} (m : List (String × V)) (k : String) : Option V :=
  (m.find? (fun p => p.1 == k)).map (fun p => p.2)

/-- Object.keys of a JS object: its keys in insertion order. -/
def jsKeys {V : Type} (m : List (String × V)) : List String :=
  m.map (fun p => p.1)

/-- An addressable stored value, split as its address field plus the rest of
its fields: the payload for a node; src, dst and payload for an edge; the
edge-address list for an adjacency record. -/
structure Entry (S : Type) where
  address : Address
  rest : S
deriving DecidableEq

/-- The AddressMap of src/core/address.js: a JS object keyed by
JSON.stringify of the stored value's address. -/
structure AddressMap (S : Type) where
  data : List (String × Entry S)
deriving DecidableEq

/-- An empty AddressMap, as built by the constructor. -/
def AddressMap.empty {S : Type} : AddressMap S := ⟨[]⟩

/-- AddressMap.add: store the value at key JSON.stringify(u.address),
replacing any existing value for the same address. -/
def AddressMap.add {S : Type} (m : AddressMap S) (u : Entry S) : AddressMap S :=
  ⟨jsObjSet m.data (serializeAddress u.address) u⟩

/-- AddressMap.get: the value at key JSON.stringify(address), if any. -/
def AddressMap.get {S : Type} (m : AddressMap S) (a : Address) : Option (Entry S) :=
  jsObjGet m.data (serializeAddress a)

/-- AddressMap.getAll: all stored values, in key insertion order. -/
def AddressMap.getAll {S : Type} (m : AddressMap S) : List (Entry S) :=
  m.data.map (fun p => p.2)

/-- The key set of the backing object, in insertion order. -/
def AddressMap.keys {S : Type} (m : AddressMap S) : List String :=
  jsKeys m.data

/-- AddressMap.equals: lodash isEqual of the two backing objects - same key
set and deep-equal values at each key, independent of key insertion order. -/
def AddressMap.equals {S : Type} [DecidableEq S] (m1 m2 : AddressMap S) : Bool :=
  m1.data.all (fun p => jsObjGet m2.data p.1 == some p.2) &&
  m2.data.all (fun p => jsObjGet m1.data p.1 == some p.2)

/-- AddressMap.toJSON: a mapping from each key to the stored value with its
address field removed. -/
def AddressMap.toJSON {S : Type} (m : AddressMap S) : List (String × S) :=
  m.data.map (fun p => (p.1, p.2.rest))

/-- AddressMap.fromJSON: for each key, reattach the address obtained by
JSON.parse of the key; a key that does not parse is a JSON.parse error. -/
def AddressMap.fromJSON {S : Type} (json : List (String × S)) : Option (AddressMap S) :=
  (json.mapM (fun p => (parseAddress p.1).map (fun a => (p.1, Entry.mk a p.2)))).map
    (fun l => ⟨l⟩)

/-- Well-formedness of an AddressMap as the JS runtime and the source maintain
it: keys of a JS object are distinct, and every entry is keyed by the
serialization of its own address. -/
def AddressMap.Wf {S : Type} (m : AddressMap S) : Prop :=
  m.keys.Nodup ∧ ∀ p ∈ m.data, p.1 = serializeAddress p.2.address

/-- The fields of an edge other than its own address: the src and dst node
addresses and the payload (the Edge flow type of src/core/graph.js). -/
structure EdgeRest (P : Type) where
  src : Address
  dst : Address
  payload : P
deriving DecidableEq

/-- The src endpoint address of an edge. -/
def Entry.src {P : Type} (e : Entry (EdgeRest P)) : Address := e.rest.src

/-- The dst endpoint address of an edge. -/
def Entry.dst {P : Type} (e : Entry (EdgeRest P)) : Address := e.rest.dst

/-- The Graph of src/core/graph.js: four AddressMaps holding the nodes, the
edges, and the per-node out-edge and in-edge address lists.  A node is an
Entry NP (address plus payload); an edge is an Entry (EdgeRest EP) (address
plus src, dst and payload); an adjacency record is an Entry (List Address)
(the node address plus its edges array). -/
structure Graph (NP EP : Type) where
  nodes : AddressMap NP
  edges : AddressMap (EdgeRest EP)
  outEdges : AddressMap (List Address)
  inEdges : AddressMap (List Address)
deriving DecidableEq

/-- The Graph constructor: four empty maps. -/
def Graph.empty {NP EP : Type} : Graph NP EP :=
  ⟨AddressMap.empty, AddressMap.empty, AddressMap.empty, AddressMap.empty⟩

/-- Graph.getNode: direct lookup in the node map. -/
def Graph.getNode {NP EP : Type} (g : Graph NP EP) (a : Address) : Option (Entry NP) :=
  g.nodes.get a

/-- Graph.getEdge: direct lookup in the edge map. -/
def Graph.getEdge {NP EP : Type} (g : Graph NP EP) (a : Address) :
    Option (Entry (EdgeRest EP)) :=
  g.edges.get a

/-- Graph.getAllNodes: all nodes, in key insertion order. -/
def Graph.getAllNodes {NP EP : Type} (g : Graph NP EP) : List (Entry NP) :=
  g.nodes.getAll

/-- Graph.getAllEdges: all edges, in key insertion order. -/
def Graph.getAllEdges {NP EP : Type} (g : Graph NP EP) : List (Entry (EdgeRest EP)) :=
  g.edges.getAll

/-- Graph.equals: the node maps and the edge maps are each logically equal
(the adjacency indices are derived and are not compared). -/
def Graph.equals {NP EP : Type} [DecidableEq NP] [DecidableEq EP]
    (g1 g2 : Graph NP EP) : Bool :=
  g1.nodes.equals g2.nodes && g1.edges.equals g2.edges

/-- Graph.addNode of src/core/graph.js, with the graph state at every exit
point.  The conflict check precedes all three map insertions, so every
throwing exit returns the unmodified input graph paired with the thrown
message; a successful exit returns the updated graph and no message. -/
def Graph.addNodeS {NP EP : Type} [DecidableEq NP] (g : Graph NP EP)
    (node : Entry NP) : Graph NP EP × Option String :=
  match g.getNode node.address with
  | some existingNode =>
    if existingNode = node then (g, none)
    else (g, some ("node at address " ++ serializeAddress node.address ++
      " exists with distinct contents"))
  | none =>
    ({ g with
        nodes := g.nodes.add node,
        outEdges := g.outEdges.add ⟨node.address, []⟩,
        inEdges := g.inEdges.add ⟨node.address, []⟩ }, none)

/-- Graph.addNode as a fallible operation: the updated graph, or the thrown
message. -/
def Graph.addNode {NP EP : Type} [DecidableEq NP] (g : Graph NP EP)
    (node : Entry NP) : Except String (Graph NP EP) :=
  match g.addNodeS node with
  | (g2, none) => Except.ok g2
  | (_, some e) => Except.error e

/-- The in-place push performed by this._outEdges.get(a).edges.push(ea): the
edges array of the adjacency record stored at the key of a gains ea at its
end.  The operation is only reached when the entry exists; on an absent entry
the JS code would crash, and the model leaves the map unchanged. -/
def pushEdge (m : AddressMap (List Address)) (a : Address) (ea : Address) :
    AddressMap (List Address) :=
  ⟨m.data.map (fun p =>
    if p.1 = serializeAddress a then (p.1, ⟨p.2.address, p.2.rest ++ [ea]⟩) else p)⟩

/-- Graph.addEdge of src/core/graph.js, with the graph state at every exit
point.  The conflict check and both endpoint checks precede every mutation,
the missing-src and missing-dst checks each producing the message of the
source (note that both messages use the word source).  Every throwing exit
returns the unmodified input graph paired with the thrown message. -/
def Graph.addEdgeS {NP EP : Type} [DecidableEq NP] [DecidableEq EP]
    (g : Graph NP EP) (edge : Entry (EdgeRest EP)) : Graph NP EP × Option String :=
  match g.getEdge edge.address with
  | some existingEdge =>
    if existingEdge = edge then (g, none)
    else (g, some ("edge at address " ++ serializeAddress edge.address ++
      " exists with distinct contents"))
  | none =>
    if (g.getNode edge.src).isNone then
      (g, some ("source " ++ serializeAddress edge.src ++ " does not exist"))
    else if (g.getNode edge.dst).isNone then
      (g, some ("source " ++ serializeAddress edge.dst ++ " does not exist"))
    else
      ({ g with
          edges := g.edges.add edge,
          outEdges := pushEdge g.outEdges edge.src edge.address,
          inEdges := pushEdge g.inEdges edge.dst edge.address }, none)

/-- Graph.addEdge as a fallible operation: the updated graph, or the thrown
message. -/
def Graph.addEdge {NP EP : Type} [DecidableEq NP] [DecidableEq EP]
    (g : Graph NP EP) (edge : Entry (EdgeRest EP)) : Except String (Graph NP EP) :=
  match g.addEdgeS edge with
  | (g2, none) => Except.ok g2
  | (_, some e) => Except.error e

/-- Graph.getOutEdges: the edges array of the adjacency record at the
address, each edge address resolved through getEdge; a missing record is a
thrown no-node error. -/
def Graph.getOutEdges {NP EP : Type} (g : Graph NP EP) (a : Address) :
    Except String (List (Option (Entry (EdgeRest EP)))) :=
  match g.outEdges.get a with
  | none => Except.error ("no node for address " ++ serializeAddress a)
  | some record => Except.ok (record.rest.map (fun ea => g.getEdge ea))

/-- Graph.getInEdges, symmetric to getOutEdges. -/
def Graph.getInEdges {NP EP : Type} (g : Graph NP EP) (a : Address) :
    Except String (List (Option (Entry (EdgeRest EP)))) :=
  match g.inEdges.get a with
  | none => Except.error ("no node for address " ++ serializeAddress a)
  | some record => Except.ok (record.rest.map (fun ea => g.getEdge ea))

/-- forEach over a list with a possibly throwing body: the loop stops at the
first thrown error, as a JS forEach with exceptions does. -/
def forEachE {σ α : Type} (f : σ → α → Except String σ) :
    σ → List α → Except String σ
  | s, [] => Except.ok s
  | s, a :: rest =>
    match f s a with
    | Except.ok s2 => forEachE f s2 rest
    | Except.error e => Except.error e

/-- One iteration of the first merge loop: a g1 node is resolved against the
same-address g2 node when one exists, and the resolved (or unchanged) node is
added to the result. -/
def mergeNodeStep {NP EP : Type} [DecidableEq NP] (g2 : Graph NP EP)
    (nodeResolver : Entry NP → Entry NP → Except String (Entry NP))
    (r : Graph NP EP) (node : Entry NP) : Except String (Graph NP EP) :=
  match g2.getNode node.address with
  | some n2 =>
    match nodeResolver node n2 with
    | Except.ok resolved => r.addNode resolved
    | Except.error e => Except.error e
  | none => r.addNode node

/-- One iteration of the second merge loop: a g2 node is added when the
result has no node at its address yet. -/
def mergeNode2Step {NP EP : Type} [DecidableEq NP] (r : Graph NP EP)
    (node : Entry NP) : Except String (Graph NP EP) :=
  match r.getNode node.address with
  | some _ => Except.ok r
  | none => r.addNode node

/-- One iteration of the third merge loop, like the first but for edges. -/
def mergeEdgeStep {NP EP : Type} [DecidableEq NP] [DecidableEq EP] (g2 : Graph NP EP)
    (edgeResolver : Entry (EdgeRest EP) → Entry (EdgeRest EP) →
      Except String (Entry (EdgeRest EP)))
    (r : Graph NP EP) (edge : Entry (EdgeRest EP)) : Except String (Graph NP EP) :=
  match g2.getEdge edge.address with
  | some e2 =>
    match edgeResolver edge e2 with
    | Except.ok resolved => r.addEdge resolved
    | Except.error e => Except.error e
  | none => r.addEdge edge

/-- One iteration of the fourth merge loop, like the second but for edges. -/
def mergeEdge2Step {NP EP : Type} [DecidableEq NP] [DecidableEq EP] (r : Graph NP EP)
    (edge : Entry (EdgeRest EP)) : Except String (Graph NP EP) :=
  match r.getEdge edge.address with
  | some _ => Except.ok r
  | none => r.addEdge edge

/-- Graph.merge of src/core/graph.js: into a fresh result graph, add the
nodes of g1 (resolving shared addresses against g2), then the nodes only in
g2, then the edges of g1 (resolving likewise), then the edges only in g2.
The payload types of the two inputs are taken equal; the source leaves them
unconstrained and the merge logic never inspects payloads. -/
def Graph.merge {NP EP : Type} [DecidableEq NP] [DecidableEq EP]
    (g1 g2 : Graph NP EP)
    (nodeResolver : Entry NP → Entry NP → Except String (Entry NP))
    (edgeResolver : Entry (EdgeRest EP) → Entry (EdgeRest EP) →
      Except String (Entry (EdgeRest EP))) : Except String (Graph NP EP) :=
  match forEachE (mergeNodeStep g2 nodeResolver) Graph.empty g1.getAllNodes with
  | Except.error e => Except.error e
  | Except.ok r1 =>
  match forEachE mergeNode2Step r1 g2.getAllNodes with
  | Except.error e => Except.error e
  | Except.ok r2 =>
  match forEachE (mergeEdgeStep g2 edgeResolver) r2 g1.getAllEdges with
  | Except.error e => Except.error e
  | Except.ok r3 => forEachE mergeEdge2Step r3 g2.getAllEdges

/-- The resolver used by Graph.mergeConservative: returns its first argument
when the two values are deep-equal and otherwise throws the distinct-values
message naming the kind and the address. -/
def conservativeResolver {S : Type} [DecidableEq S] (kinds : String)
    (a b : Entry S) : Except String (Entry S) :=
  if a = b then Except.ok a
  else Except.error ("distinct " ++ kinds ++ " with address " ++
    serializeAddress a.address)

/-- Graph.mergeConservative: merge with the conservative resolvers for nodes
and for edges. -/
def Graph.mergeConservative {NP EP : Type} [DecidableEq NP] [DecidableEq EP]
    (g1 g2 : Graph NP EP) : Except String (Graph NP EP) :=
  Graph.merge g1 g2
    (fun u v => conservativeResolver "nodes" u v)
    (fun e f => conservativeResolver "edges" e f)

/-- The wire representation of a graph: the node map's JSON and the edge
map's JSON. -/
structure GraphJSON (NP EP : Type) where
  nodes : List (String × NP)
  edges : List (String × EdgeRest EP)

/-- Graph.toJSON: the JSON of the node and edge maps. -/
def Graph.toJSON {NP EP : Type} (g : Graph NP EP) : GraphJSON NP EP :=
  ⟨g.nodes.toJSON, g.edges.toJSON⟩

/-- Graph.fromJSON: rebuild the two AddressMaps from JSON, then replay
addNode over all nodes and addEdge over all edges on a fresh graph, which
re-validates all invariants; a key that JSON.parse rejects is an error. -/
def Graph.fromJSON {NP EP : Type} [DecidableEq NP] [DecidableEq EP]
    (json : GraphJSON NP EP) : Except String (Graph NP EP) :=
  match AddressMap.fromJSON json.nodes with
  | none => Except.error "JSON.parse: invalid address key"
  | some nodesMap =>
  match AddressMap.fromJSON json.edges with
  | none => Except.error "JSON.parse: invalid address key"
  | some edgesMap =>
  match forEachE (fun g node => g.addNode node) Graph.empty nodesMap.getAll with
  | Except.error e => Except.error e
  | Except.ok g => forEachE (fun g edge => g.addEdge edge) g edgesMap.getAll

/-- The number of occurrences of an edge address in the out-edge list stored
at the given node address (0 when no adjacency record exists). -/
def Graph.countOut {NP EP : Type} (g : Graph NP EP) (a ea : Address) : Nat :=
  match g.outEdges.get a with
  | none => 0
  | some record => record.rest.count ea

/-- The number of occurrences of an edge address in the in-edge list stored
at the given node address (0 when no adjacency record exists). -/
def Graph.countIn {NP EP : Type} (g : Graph NP EP) (a ea : Address) : Nat :=
  match g.inEdges.get a with
  | none => 0
  | some record => record.rest.count ea

/-- Well-formedness of a graph: the four maps are internally well-formed, the
adjacency maps have the node map's keys, every edge has both endpoints
present and occurs exactly once in the out-list at its src and in the in-list
at its dst, and every address in an adjacency list belongs to a stored edge
with the matching endpoint. -/
def Graph.Wf {NP EP : Type} (g : Graph NP EP) : Prop :=
  g.nodes.Wf ∧ g.edges.Wf ∧ g.outEdges.Wf ∧ g.inEdges.Wf ∧
  g.outEdges.keys = g.nodes.keys ∧ g.inEdges.keys = g.nodes.keys ∧
  (∀ e ∈ g.getAllEdges, (g.getNode e.src).isSome = true ∧
    (g.getNode e.dst).isSome = true ∧
    g.countOut e.src e.address = 1 ∧ g.countIn e.dst e.address = 1) ∧
  (∀ record ∈ g.outEdges.getAll, ∀ ea ∈ record.rest,
    (g.getEdge ea).map Entry.src = some record.address) ∧
  (∀ record ∈ g.inEdges.getAll, ∀ ea ∈ record.rest,
    (g.getEdge ea).map Entry.dst = some record.address)

instance {S : Type} (m : AddressMap S) : Decidable m.Wf := by
  unfold AddressMap.Wf
  infer_instance

instance {NP EP : Type} [DecidableEq NP] [DecidableEq EP] (g : Graph NP EP) :
    Decidable g.Wf := by
  unfold Graph.Wf
  infer_instance

/-- The invariants named by the specification: the keyset of the node map
equals the keysets of the out-edge-index and in-edge-index maps, and every
stored edge occurs exactly once in the out-list at its src and exactly once
in the in-list at its dst. -/
def Graph.ClaimedInvariants {NP EP : Type} (g : Graph NP EP) : Prop :=
  (∀ k, k ∈ g.nodes.keys ↔ k ∈ g.outEdges.keys) ∧
  (∀ k, k ∈ g.nodes.keys ↔ k ∈ g.inEdges.keys) ∧
  (∀ e ∈ g.getAllEdges,
    g.countOut e.src e.address = 1 ∧ g.countIn e.dst e.address = 1)

/-- Example node address a used by the concrete test graphs. -/
def addrA : Address := ⟨"repo", "plugin", "NODE", "a"⟩

/-- Example node address b. -/
def addrB : Address := ⟨"repo", "plugin", "NODE", "b"⟩

/-- Example edge address x. -/
def edgeAddrX : Address := ⟨"repo", "plugin", "EDGE", "x"⟩

/-- Example edge address y. -/
def edgeAddrY : Address := ⟨"repo", "plugin", "EDGE", "y"⟩

/-- A node at address a with payload 1. -/
def nodeA : Entry Nat := ⟨addrA, 1⟩

/-- A node at address a with a different payload. -/
def nodeA2 : Entry Nat := ⟨addrA, 2⟩

/-- A node at address b. -/
def nodeB : Entry Nat := ⟨addrB, 2⟩

/-- The graph holding exactly the node at a. -/
def graphA : Graph Nat Nat := (Graph.empty.addNodeS nodeA).1

/-- A self-loop edge at address x from a to a. -/
def edgeAA : Entry (EdgeRest Nat) := ⟨edgeAddrX, ⟨addrA, addrA, 7⟩⟩

/-- The graph holding the node at a and the self-loop x. -/
def graphAE : Graph Nat Nat := (graphA.addEdgeS edgeAA).1

/-- An edge at the already-used address x with different content and a src
that is absent from graphAE. -/
def edgeConflictMissing : Entry (EdgeRest Nat) := ⟨edgeAddrX, ⟨addrB, addrA, 9⟩⟩

/-- An edge at the fresh address y from the present node a to the absent
address b. -/
def edgeADangling : Entry (EdgeRest Nat) := ⟨edgeAddrY, ⟨addrA, addrB, 3⟩⟩

/-- An address-bearing map with two entries, for the round-trip witness. -/
def mapAB : AddressMap Nat := (AddressMap.empty.add ⟨addrA, 1⟩).add ⟨addrB, 2⟩

/-- Lookup of a property value in a JS object property list. -/
def propLookup (ps : List (String × String)) (k : String) : Option String :=
  (ps.find? (fun p => p.1 == k)).map (fun p => p.2)

/-- Field-wise equality of two address objects given as property lists: the
four fields hold the same values, regardless of assignment order. -/
def addressFieldsEqual (p q : List (String × String)) : Prop :=
  propLookup p "repositoryName" = propLookup q "repositoryName" ∧
  propLookup p "pluginName" = propLookup q "pluginName" ∧
  propLookup p "type" = propLookup q "type" ∧
  propLookup p "id" = propLookup q "id"

instance (p q : List (String × String)) : Decidable (addressFieldsEqual p q) := by
  unfold addressFieldsEqual
  infer_instance

/-- An address object whose fields were assigned in declaration order. -/
def propsOrder1 : List (String × String) :=
  [("repositoryName", "repo"), ("pluginName", "plugin"),
   ("type", "NODE"), ("id", "a")]

/-- The same four fields assigned in the order used by the repository's own
test helper makeAddress (repositoryName, pluginName, id, type). -/
def propsOrder2 : List (String × String) :=
  [("repositoryName", "repo"), ("pluginName", "plugin"),
   ("id", "a"), ("type", "NODE")]

/-- The state visible to Graph.merge: the two input graph objects and the
freshly allocated result object.  Reads go to any component; the only writes
in the source are method calls on the result, which replace only the result
component. -/
structure MergeState (NP EP : Type) where
  g1 : Graph NP EP
  g2 : Graph NP EP
  result : Graph NP EP

/-- forEach over a list with a state-and-error body: iteration stops at the
first thrown error, and the state at that point is kept (a JS exception does
not roll state back). -/
def forEachS {σ α : Type} (f : σ → α → σ × Option String) :
    σ → List α → σ × Option String
  | s, [] => (s, none)
  | s, a :: rest =>
    match f s a with
    | (s2, none) => forEachS f s2 rest
    | (s2, some e) => (s2, some e)

/-- One iteration of the first merge loop at reference granularity: reads on
g2, the resolver call, and addNode on the result. -/
def mergeNodeStepS {NP EP : Type} [DecidableEq NP]
    (nr : Entry NP → Entry NP → Except String (Entry NP))
    (s : MergeState NP EP) (node : Entry NP) : MergeState NP EP × Option String :=
  match s.g2.getNode node.address with
  | some n2 =>
    match nr node n2 with
    | Except.ok resolved =>
      match s.result.addNodeS resolved with
      | (r2, msg) => (⟨s.g1, s.g2, r2⟩, msg)
    | Except.error e => (s, some e)
  | none =>
    match s.result.addNodeS node with
    | (r2, msg) => (⟨s.g1, s.g2, r2⟩, msg)

/-- One iteration of the second merge loop at reference granularity. -/
def mergeNode2StepS {NP EP : Type} [DecidableEq NP]
    (s : MergeState NP EP) (node : Entry NP) : MergeState NP EP × Option String :=
  match s.result.getNode node.address with
  | some _ => (s, none)
  | none =>
    match s.result.addNodeS node with
    | (r2, msg) => (⟨s.g1, s.g2, r2⟩, msg)

/-- One iteration of the third merge loop at reference granularity. -/
def mergeEdgeStepS {NP EP : Type} [DecidableEq NP] [DecidableEq EP]
    (er : Entry (EdgeRest EP) → Entry (EdgeRest EP) →
      Except String (Entry (EdgeRest EP)))
    (s : MergeState NP EP) (edge : Entry (EdgeRest EP)) :
    MergeState NP EP × Option String :=
  match s.g2.getEdge edge.address with
  | some e2 =>
    match er edge e2 with
    | Except.ok resolved =>
      match s.result.addEdgeS resolved with
      | (r2, msg) => (⟨s.g1, s.g2, r2⟩, msg)
    | Except.error e => (s, some e)
  | none =>
    match s.result.addEdgeS edge with
    | (r2, msg) => (⟨s.g1, s.g2, r2⟩, msg)

/-- One iteration of the fourth merge loop at reference granularity. -/
def mergeEdge2StepS {NP EP : Type} [DecidableEq NP] [DecidableEq EP]
    (s : MergeState NP EP) (edge : Entry (EdgeRest EP)) :
    MergeState NP EP × Option String :=
  match s.result.getEdge edge.address with
  | some _ => (s, none)
  | none =>
    match s.result.addEdgeS edge with
    | (r2, msg) => (⟨s.g1, s.g2, r2⟩, msg)

/-- Graph.merge at reference granularity: the four forEach loops of the
source threading the full three-object state, with the node list and edge
list of each loop read from the threaded state at the point the loop starts. -/
def Graph.mergeS {NP EP : Type} [DecidableEq NP] [DecidableEq EP]
    (g1 g2 : Graph NP EP)
    (nr : Entry NP → Entry NP → Except String (Entry NP))
    (er : Entry (EdgeRest EP) → Entry (EdgeRest EP) →
      Except String (Entry (EdgeRest EP))) : MergeState NP EP × Option String :=
  match forEachS (mergeNodeStepS nr) ⟨g1, g2, Graph.empty⟩
      (MergeState.g1 ⟨g1, g2, Graph.empty⟩).getAllNodes with
  | (s, some e) => (s, some e)
  | (s1, none) =>
  match forEachS mergeNode2StepS s1 s1.g2.getAllNodes with
  | (s, some e) => (s, some e)
  | (s2, none) =>
  match forEachS (mergeEdgeStepS er) s2 s2.g1.getAllEdges with
  | (s, some e) => (s, some e)
  | (s3, none) =>
  match forEachS mergeEdge2StepS s3 s3.g2.getAllEdges with
  | (s, some e) => (s, some e)
  | (s4, none) => (s4, none)

/-- The graph holding the node at a with the other payload. -/
def graphA2 : Graph Nat Nat := (Graph.empty.addNodeS nodeA2).1

/-- A node resolver that returns a node at a different address (addrB) than
the shared input address (addrA). -/
def mismatchResolver (u v : Entry Nat) : Except String (Entry Nat) :=
  Except.ok ⟨addrB, u.rest + v.rest⟩

/-- An edge resolver that keeps its first argument. -/
def keepFirstEdgeResolver (e f : Entry (EdgeRest Nat)) :
    Except String (Entry (EdgeRest Nat)) :=
  Except.ok e

/-- The result of merging the two one-node graphs with the mismatching
resolver. -/
def mismatchMergeResult : Graph Nat Nat :=
  match Graph.merge graphA graphA2 mismatchResolver keepFirstEdgeResolver with
  | Except.ok r => r
  | Except.error _ => Graph.empty

theorem data_append (s t : String) : (s ++ t).data = s.data ++ t.data := by
  cases s; cases t; rfl

theorem mk_data (s : String) : String.mk s.data = s := by
  cases s; rfl

theorem expectLit_append (l r : List Char) : expectLit l (l ++ r) = some r := by
  induction l with
  | nil => rfl
  | cons c cs ih => simp [expectLit, ih]

theorem scanQuoted_escape (s r : List Char) :
    scanQuoted (escapeChars s ++ '"' :: r) = some (s, r) := by
  induction s with
  | nil =>
    show scanQuoted ('"' :: r) = some ([], r)
    rw [scanQuoted.eq_def]
    simp
  | cons c cs ih =>
    by_cases h : c = '"' ∨ c = '\\'
    · have hesc : escapeChars (c :: cs) = '\\' :: c :: escapeChars cs := by
        simp [escapeChars, escapeChar, h]
      rw [hesc]
      simp [scanQuoted, ih]
    · push_neg at h
      have hesc : escapeChars (c :: cs) = c :: escapeChars cs := by
        simp [escapeChars, escapeChar, h.1, h.2]
      rw [hesc]
      rw [List.cons_append, scanQuoted.eq_def]
      dsimp only
      rw [if_neg h.1, if_neg h.2, ih]
      rfl

theorem parseLitString_spec (pre f : String) (rest : List Char) :
    parseLitString pre (pre.data ++ (escapeChars f.data ++ '"' :: rest)) =
      some (f, rest) := by
  simp [parseLitString, expectLit_append, scanQuoted_escape, mk_data]

theorem data_mk (l : List Char) : (String.mk l).data = l := rfl

theorem serializeAddress_data (a : Address) :
    (serializeAddress a).data =
      preRepo.data ++ (escapeChars a.repositoryName.data ++ '"' ::
      (prePlugin.data ++ (escapeChars a.pluginName.data ++ '"' ::
      (preType.data ++ (escapeChars a.type.data ++ '"' ::
      (preId.data ++ (escapeChars a.id.data ++ '"' :: ['\x7d']))))))) := by
  have e1 : escapeChars "repositoryName".data = "repositoryName".data := by decide
  have e2 : escapeChars "pluginName".data = "pluginName".data := by decide
  have e3 : escapeChars "type".data = "type".data := by decide
  have e4 : escapeChars "id".data = "id".data := by decide
  have hF1 : preRepo.data = ['\x7b', '"'] ++ "repositoryName".data ++ ['"', ':', '"'] := by
    decide
  have hF2 : prePlugin.data = [',', '"'] ++ "pluginName".data ++ ['"', ':', '"'] := by
    decide
  have hF3 : preType.data = [',', '"'] ++ "type".data ++ ['"', ':', '"'] := by
    decide
  have hF4 : preId.data = [',', '"'] ++ "id".data ++ ['"', ':', '"'] := by
    decide
  simp [serializeAddress, stringifyPairs, Address.jsProps, joinPairs, encString,
        data_append, data_mk, e1, e2, e3, e4, hF1, hF2, hF3, hF4]

theorem parseAddress_serializeAddress (a : Address) :
    parseAddress (serializeAddress a) = some a := by
  cases a with
  | mk rn pn ty idv =>
    simp only [parseAddress, serializeAddress_data, parseLitString_spec]
    simp

theorem serializeAddress_inj {a b : Address}
    (h : serializeAddress a = serializeAddress b) : a = b := by
  have h2 := congrArg parseAddress h
  rw [parseAddress_serializeAddress, parseAddress_serializeAddress] at h2
  exact Option.some_injective _ h2

theorem serializeAddress_eq_iff (a b : Address) :
    serializeAddress a = serializeAddress b ↔ a = b :=
  ⟨fun h => serializeAddress_inj h, fun h => by rw [h]⟩

theorem jsObjGet_nil {V : Type} (k : String) : jsObjGet ([] : List (String × V)) k = none :=
  rfl

theorem jsObjGet_cons {V : Type} (k' : String) (v : V) (m : List (String × V)) (k : String) :
    jsObjGet ((k', v) :: m) k = if k' = k then some v else jsObjGet m k := by
  by_cases h : k' = k
  · simp [jsObjGet, List.find?_cons, h]
  · simp [jsObjGet, List.find?_cons, h]

theorem jsObjGet_eq_none_iff {V : Type} (m : List (String × V)) (k : String) :
    jsObjGet m k = none ↔ k ∉ jsKeys m := by
  induction m with
  | nil => simp [jsObjGet_nil, jsKeys]
  | cons p m ih =>
    cases p with
    | mk k' v =>
      by_cases h : k' = k
      · simp [jsObjGet_cons, h, jsKeys]
      · simp [jsObjGet_cons, h, jsKeys] at ih ⊢
        exact ⟨fun hn => ⟨fun he => h he.symm, (ih.mp hn)⟩, fun hc => ih.mpr hc.2⟩

theorem jsKeys_cons {V : Type} (p : String × V) (m : List (String × V)) :
    jsKeys (p :: m) = p.1 :: jsKeys m := rfl

theorem jsObjGet_append_right {V : Type} (m l : List (String × V)) (k : String)
    (h : k ∉ jsKeys m) : jsObjGet (m ++ l) k = jsObjGet l k := by
  induction m with
  | nil => rfl
  | cons p m ih =>
    rw [jsKeys_cons] at h
    simp only [List.mem_cons, not_or] at h
    rw [List.cons_append, jsObjGet_cons, if_neg (fun he => h.1 he.symm), ih h.2]

theorem jsObjGet_append_left {V : Type} (m l : List (String × V)) (k : String)
    (h : k ∈ jsKeys m) : jsObjGet (m ++ l) k = jsObjGet m k := by
  induction m with
  | nil => simp [jsKeys] at h
  | cons p m ih =>
    cases p with
    | mk k' v =>
      by_cases hk : k' = k
      · rw [List.cons_append, jsObjGet_cons, if_pos hk, jsObjGet_cons, if_pos hk]
      · simp [jsKeys, Ne.symm hk] at h
        rw [List.cons_append, jsObjGet_cons, if_neg hk, jsObjGet_cons, if_neg hk,
          ih (by simpa [jsKeys] using h)]

theorem jsObjGet_of_mem_nodup {V : Type} (m : List (String × V)) (p : String × V)
    (hmem : p ∈ m) (hnd : (jsKeys m).Nodup) : jsObjGet m p.1 = some p.2 := by
  induction m with
  | nil => simp at hmem
  | cons q m ih =>
    rw [jsKeys_cons] at hnd
    have hnd1 := List.nodup_cons.mp hnd
    rcases List.mem_cons.mp hmem with h | h
    · subst h
      rw [jsObjGet_cons, if_pos rfl]
    · have hp1 : p.1 ∈ jsKeys m := List.mem_map_of_mem (fun r => r.1) h
      have hne : q.1 ≠ p.1 := fun he => hnd1.1 (he ▸ hp1)
      rw [jsObjGet_cons, if_neg hne, ih h hnd1.2]

theorem jsObjGet_some_mem {V : Type} {m : List (String × V)} {k : String} {v : V}
    (h : jsObjGet m k = some v) : (k, v) ∈ m := by
  unfold jsObjGet at h
  cases hf : m.find? (fun p => p.1 == k) with
  | none => rw [hf] at h; simp at h
  | some p =>
    rw [hf] at h
    simp at h
    have hm := List.mem_of_find?_eq_some hf
    have hk := List.find?_some hf
    rw [beq_iff_eq] at hk
    have hp : p = (k, v) := by
      cases p
      cases h
      cases hk
      rfl
    exact hp ▸ hm

theorem jsObjSet_fresh {V : Type} (m : List (String × V)) (k : String) (v : V)
    (h : k ∉ jsKeys m) : jsObjSet m k v = m ++ [(k, v)] := by
  unfold jsObjSet
  rw [if_neg]
  intro hany
  rcases List.any_eq_true.mp hany with ⟨p, hp, he⟩
  rw [beq_iff_eq] at he
  exact h (he ▸ List.mem_map_of_mem (fun r => r.1) hp)

theorem AddressMap.get_empty {S : Type} (a : Address) :
    (AddressMap.empty : AddressMap S).get a = none := rfl

theorem AddressMap.get_eq_none_iff {S : Type} (m : AddressMap S) (a : Address) :
    m.get a = none ↔ serializeAddress a ∉ m.keys :=
  jsObjGet_eq_none_iff m.data (serializeAddress a)

theorem AddressMap.get_mem_getAll {S : Type} {m : AddressMap S} {a : Address}
    {u : Entry S} (h : m.get a = some u) : u ∈ m.getAll := by
  have := jsObjGet_some_mem h
  exact List.mem_map_of_mem (fun p => p.2) this

theorem AddressMap.get_address {S : Type} {m : AddressMap S} {a : Address}
    {u : Entry S} (hwf : m.Wf) (h : m.get a = some u) : u.address = a := by
  have hmem := jsObjGet_some_mem h
  have hkey := hwf.2 _ hmem
  exact serializeAddress_inj hkey.symm

theorem AddressMap.getAll_get {S : Type} {m : AddressMap S} {u : Entry S}
    (hwf : m.Wf) (h : u ∈ m.getAll) : m.get u.address = some u := by
  rcases List.mem_map.mp h with ⟨p, hp, he⟩
  have hkey := hwf.2 _ hp
  have : m.get u.address = jsObjGet m.data p.1 := by
    unfold AddressMap.get
    rw [hkey, he]
  rw [this]
  have := jsObjGet_of_mem_nodup m.data p hp hwf.1
  rw [this, he]

theorem AddressMap.add_fresh {S : Type} (m : AddressMap S) (u : Entry S)
    (h : m.get u.address = none) : (m.add u).data = m.data ++ [(serializeAddress u.address, u)] := by
  unfold AddressMap.add
  rw [jsObjSet_fresh]
  exact (AddressMap.get_eq_none_iff m u.address).mp h

theorem AddressMap.get_add_fresh_self {S : Type} (m : AddressMap S) (u : Entry S)
    (h : m.get u.address = none) : (m.add u).get u.address = some u := by
  unfold AddressMap.get
  rw [AddressMap.add_fresh m u h,
    jsObjGet_append_right _ _ _ ((AddressMap.get_eq_none_iff m u.address).mp h),
    jsObjGet_cons, if_pos rfl]

theorem AddressMap.get_add_fresh {S : Type} (m : AddressMap S) (u : Entry S)
    (h : m.get u.address = none) (a : Address) :
    (m.add u).get a = if a = u.address then some u else m.get a := by
  by_cases ha : a = u.address
  · rw [if_pos ha, ha]
    exact AddressMap.get_add_fresh_self m u h
  · rw [if_neg ha]
    unfold AddressMap.get
    rw [AddressMap.add_fresh m u h]
    by_cases hk : serializeAddress a ∈ jsKeys m.data
    · exact jsObjGet_append_left _ _ _ hk
    · rw [jsObjGet_append_right _ _ _ hk, jsObjGet_cons,
        if_neg (fun he => ha (serializeAddress_inj he.symm)), jsObjGet_nil]
      exact ((jsObjGet_eq_none_iff m.data (serializeAddress a)).mpr hk).symm

theorem AddressMap.keys_add_fresh {S : Type} (m : AddressMap S) (u : Entry S)
    (h : m.get u.address = none) :
    (m.add u).keys = m.keys ++ [serializeAddress u.address] := by
  unfold AddressMap.keys jsKeys
  rw [AddressMap.add_fresh m u h]
  simp

theorem AddressMap.getAll_add_fresh {S : Type} (m : AddressMap S) (u : Entry S)
    (h : m.get u.address = none) : (m.add u).getAll = m.getAll ++ [u] := by
  unfold AddressMap.getAll
  rw [AddressMap.add_fresh m u h]
  simp

theorem AddressMap.wf_empty {S : Type} : (AddressMap.empty : AddressMap S).Wf := by
  constructor
  · exact List.nodup_nil
  · intro p hp
    simp [AddressMap.empty] at hp

theorem AddressMap.wf_add_fresh {S : Type} (m : AddressMap S) (u : Entry S)
    (hwf : m.Wf) (h : m.get u.address = none) : (m.add u).Wf := by
  constructor
  · rw [AddressMap.keys_add_fresh m u h]
    rw [List.nodup_append]
    refine ⟨hwf.1, List.nodup_singleton _, ?_⟩
    intro k hk hk1
    rw [List.mem_singleton] at hk1
    exact (AddressMap.get_eq_none_iff m u.address).mp h (hk1 ▸ hk)
  · intro p hp
    rw [AddressMap.add_fresh m u h] at hp
    rcases List.mem_append.mp hp with hp | hp
    · exact hwf.2 p hp
    · rw [List.mem_singleton] at hp
      rw [hp]

theorem AddressMap.equals_refl {S : Type} [DecidableEq S] (m : AddressMap S)
    (hnd : m.keys.Nodup) : m.equals m = true := by
  unfold AddressMap.equals
  rw [Bool.and_eq_true]
  constructor <;>
  · rw [List.all_eq_true]
    intro p hp
    rw [beq_iff_eq]
    exact jsObjGet_of_mem_nodup m.data p hp hnd

theorem AddressMap.fromJSON_toJSON {S : Type} (m : AddressMap S) (hwf : m.Wf) :
    AddressMap.fromJSON m.toJSON = some m := by
  unfold AddressMap.fromJSON AddressMap.toJSON
  have key : ∀ (l : List (String × Entry S)),
      (∀ p ∈ l, p.1 = serializeAddress p.2.address) →
      (l.map (fun p => (p.1, p.2.rest))).mapM
        (fun p => (parseAddress p.1).map (fun a => (p.1, Entry.mk a p.2))) = some l := by
    intro l
    induction l with
    | nil => intro _; rfl
    | cons p l ih =>
      intro hl
      have hp := hl p (List.mem_cons_self p l)
      rw [List.map_cons, List.mapM_cons]
      have hparse : parseAddress p.1 = some p.2.address := by
        rw [hp]
        exact parseAddress_serializeAddress p.2.address
      rw [hparse]
      simp only [Option.map_some, Option.pure_def, Option.bind_eq_bind, Option.some_bind]
      rw [ih (fun q hq => hl q (List.mem_cons_of_mem p hq))]
      rfl
  rw [key m.data hwf.2]
  rfl

theorem Graph.claimedInvariants_of_wf {NP EP : Type} {g : Graph NP EP}
    (hwf : g.Wf) : g.ClaimedInvariants := by
  obtain ⟨-, -, -, -, hout, hin, hedge, -, -⟩ := hwf
  exact ⟨fun k => by rw [hout], fun k => by rw [hin],
    fun e he => ⟨(hedge e he).2.2.1, (hedge e he).2.2.2⟩⟩

theorem Graph.wf_graph_empty {NP EP : Type} : (Graph.empty : Graph NP EP).Wf := by
  refine ⟨AddressMap.wf_empty, AddressMap.wf_empty, AddressMap.wf_empty,
    AddressMap.wf_empty, rfl, rfl, ?_, ?_, ?_⟩ <;>
  · intro x hx
    simp [Graph.empty, Graph.getAllEdges, AddressMap.getAll, AddressMap.empty] at hx

theorem Graph.addNodeS_noop {NP EP : Type} [DecidableEq NP]
    {g : Graph NP EP} {n : Entry NP} (h : g.getNode n.address = some n) :
    g.addNodeS n = (g, none) := by
  unfold Graph.addNodeS
  rw [h]
  dsimp only
  rw [if_pos rfl]

theorem Graph.addNodeS_conflict {NP EP : Type} [DecidableEq NP]
    {g : Graph NP EP} {n m : Entry NP} (h : g.getNode n.address = some m)
    (hne : m ≠ n) :
    g.addNodeS n = (g, some ("node at address " ++ serializeAddress n.address ++
      " exists with distinct contents")) := by
  unfold Graph.addNodeS
  rw [h]
  dsimp only
  rw [if_neg hne]

theorem Graph.addNodeS_insert {NP EP : Type} [DecidableEq NP]
    {g : Graph NP EP} {n : Entry NP} (h : g.getNode n.address = none) :
    g.addNodeS n =
      ({ g with
          nodes := g.nodes.add n,
          outEdges := g.outEdges.add ⟨n.address, []⟩,
          inEdges := g.inEdges.add ⟨n.address, []⟩ }, none) := by
  unfold Graph.addNodeS
  rw [h]

theorem Graph.addNodeS_fst_of_err {NP EP : Type} [DecidableEq NP]
    (g : Graph NP EP) (n : Entry NP) (msg : String)
    (h : (g.addNodeS n).2 = some msg) : (g.addNodeS n).1 = g := by
  cases hg : g.getNode n.address with
  | none =>
    rw [Graph.addNodeS_insert hg] at h
    simp at h
  | some m =>
    by_cases he : m = n
    · subst he
      rw [Graph.addNodeS_noop hg]
    · rw [Graph.addNodeS_conflict hg he]

theorem Graph.edges_addNodeS {NP EP : Type} [DecidableEq NP]
    (g : Graph NP EP) (n : Entry NP) : (g.addNodeS n).1.edges = g.edges := by
  cases hg : g.getNode n.address with
  | none => rw [Graph.addNodeS_insert hg]
  | some m =>
    by_cases he : m = n
    · subst he
      rw [Graph.addNodeS_noop hg]
    · rw [Graph.addNodeS_conflict hg he]

theorem Graph.getNode_addNodeS {NP EP : Type} [DecidableEq NP]
    {g g2 : Graph NP EP} {n : Entry NP} (hok : g.addNodeS n = (g2, none))
    (a : Address) :
    g2.getNode a = if a = n.address then some n else g.getNode a := by
  cases hg : g.getNode n.address with
  | some m =>
    by_cases he : m = n
    · rw [he] at hg
      rw [Graph.addNodeS_noop hg] at hok
      cases hok
      by_cases ha : a = n.address
      · rw [if_pos ha, ha, hg]
      · rw [if_neg ha]
    · rw [Graph.addNodeS_conflict hg he] at hok
      cases hok
  | none =>
    rw [Graph.addNodeS_insert hg] at hok
    cases hok
    show (g.nodes.add n).get a = _
    exact AddressMap.get_add_fresh g.nodes n hg a

theorem Graph.getEdge_addNodeS_fst {NP EP : Type} [DecidableEq NP]
    (g : Graph NP EP) (n : Entry NP) (a : Address) :
    (g.addNodeS n).1.getEdge a = g.getEdge a := by
  show (g.addNodeS n).1.edges.get a = g.edges.get a
  rw [Graph.edges_addNodeS]

theorem Graph.wf_addNodeS {NP EP : Type} [DecidableEq NP]
    {g g2 : Graph NP EP} {n : Entry NP} (hwf : g.Wf)
    (hok : g.addNodeS n = (g2, none)) : g2.Wf := by
  cases hg : g.getNode n.address with
  | some m =>
    by_cases he : m = n
    · rw [he] at hg
      rw [Graph.addNodeS_noop hg] at hok
      cases hok
      exact hwf
    · rw [Graph.addNodeS_conflict hg he] at hok
      cases hok
  | none =>
    rw [Graph.addNodeS_insert hg] at hok
    cases hok
    obtain ⟨hn, hedg, hout, hin, hko, hki, hedge, hsout, hsin⟩ := hwf
    have hgn : g.nodes.get n.address = none := hg
    have hknot : serializeAddress n.address ∉ g.nodes.keys :=
      (AddressMap.get_eq_none_iff g.nodes n.address).mp hgn
    have houtget : g.outEdges.get n.address = none := by
      rw [AddressMap.get_eq_none_iff, hko]
      exact hknot
    have hinget : g.inEdges.get n.address = none := by
      rw [AddressMap.get_eq_none_iff, hki]
      exact hknot
    refine ⟨AddressMap.wf_add_fresh g.nodes n hn hgn, hedg,
      AddressMap.wf_add_fresh g.outEdges ⟨n.address, []⟩ hout houtget,
      AddressMap.wf_add_fresh g.inEdges ⟨n.address, []⟩ hin hinget, ?_, ?_, ?_, ?_, ?_⟩
    · show (g.outEdges.add ⟨n.address, []⟩).keys = (g.nodes.add n).keys
      rw [AddressMap.keys_add_fresh g.outEdges ⟨n.address, []⟩ houtget,
        AddressMap.keys_add_fresh g.nodes n hgn, hko]
    · show (g.inEdges.add ⟨n.address, []⟩).keys = (g.nodes.add n).keys
      rw [AddressMap.keys_add_fresh g.inEdges ⟨n.address, []⟩ hinget,
        AddressMap.keys_add_fresh g.nodes n hgn, hki]
    · intro e he
      have he2 : e ∈ g.getAllEdges := he
      obtain ⟨hs1, hs2, hc1, hc2⟩ := hedge e he2
      have hsrcne : e.src ≠ n.address := by
        intro hcon
        unfold Graph.countOut at hc1
        rw [hcon, houtget] at hc1
        simp at hc1
      have hdstne : e.dst ≠ n.address := by
        intro hcon
        unfold Graph.countIn at hc2
        rw [hcon, hinget] at hc2
        simp at hc2
      refine ⟨?_, ?_, ?_, ?_⟩
      · show ((g.nodes.add n).get e.src).isSome = true
        rw [AddressMap.get_add_fresh g.nodes n hgn, if_neg hsrcne]
        exact hs1
      · show ((g.nodes.add n).get e.dst).isSome = true
        rw [AddressMap.get_add_fresh g.nodes n hgn, if_neg hdstne]
        exact hs2
      · unfold Graph.countOut at hc1 ⊢
        dsimp only
        rw [AddressMap.get_add_fresh g.outEdges ⟨n.address, []⟩ houtget, if_neg hsrcne]
        exact hc1
      · unfold Graph.countIn at hc2 ⊢
        dsimp only
        rw [AddressMap.get_add_fresh g.inEdges ⟨n.address, []⟩ hinget, if_neg hdstne]
        exact hc2
    · intro record hrec ea hea
      rw [show ({ g with
          nodes := g.nodes.add n,
          outEdges := g.outEdges.add ⟨n.address, []⟩,
          inEdges := g.inEdges.add ⟨n.address, []⟩ } : Graph NP EP).outEdges.getAll
          = g.outEdges.getAll ++ [(⟨n.address, []⟩ : Entry (List Address))] from
        AddressMap.getAll_add_fresh g.outEdges ⟨n.address, []⟩ houtget] at hrec
      rcases List.mem_append.mp hrec with hrec | hrec
      · exact hsout record hrec ea hea
      · rw [List.mem_singleton] at hrec
        subst hrec
        simp at hea
    · intro record hrec ea hea
      rw [show ({ g with
          nodes := g.nodes.add n,
          outEdges := g.outEdges.add ⟨n.address, []⟩,
          inEdges := g.inEdges.add ⟨n.address, []⟩ } : Graph NP EP).inEdges.getAll
          = g.inEdges.getAll ++ [(⟨n.address, []⟩ : Entry (List Address))] from
        AddressMap.getAll_add_fresh g.inEdges ⟨n.address, []⟩ hinget] at hrec
      rcases List.mem_append.mp hrec with hrec | hrec
      · exact hsin record hrec ea hea
      · rw [List.mem_singleton] at hrec
        subst hrec
        simp at hea

theorem jsObjGet_map_update {V : Type} (m : List (String × V)) (k : String)
    (f : V → V) (k2 : String) :
    jsObjGet (m.map (fun p => if p.1 = k then (p.1, f p.2) else p)) k2 =
      if k2 = k then (jsObjGet m k).map f else jsObjGet m k2 := by
  induction m with
  | nil =>
    by_cases h : k2 = k <;> simp [jsObjGet_nil, h]
  | cons p m ih =>
    cases p with
    | mk kp v =>
      rw [List.map_cons]
      by_cases hp : kp = k
      · subst hp
        rw [show (if (kp, v).1 = kp then ((kp, v).1, f (kp, v).2) else (kp, v))
            = (kp, f v) from by simp]
        by_cases h2 : k2 = kp
        · subst h2
          simp [jsObjGet_cons]
        · simp [jsObjGet_cons, ih, h2, Ne.symm h2]
      · rw [show (if (kp, v).1 = k then ((kp, v).1, f (kp, v).2) else (kp, v))
            = (kp, v) from by simp [hp]]
        by_cases h2 : k2 = kp
        · subst h2
          simp [jsObjGet_cons, hp]
        · simp [jsObjGet_cons, ih, hp, Ne.symm h2]

theorem pushEdge_get (m : AddressMap (List Address)) (a ea : Address)
    (a2 : Address) :
    (pushEdge m a ea).get a2 =
      if a2 = a then (m.get a).map (fun r => ⟨r.address, r.rest ++ [ea]⟩)
      else m.get a2 := by
  show jsObjGet (m.data.map _) (serializeAddress a2) = _
  rw [jsObjGet_map_update m.data (serializeAddress a)
    (fun r => ⟨r.address, r.rest ++ [ea]⟩) (serializeAddress a2)]
  by_cases h : a2 = a
  · rw [if_pos ((serializeAddress_eq_iff a2 a).mpr h), if_pos h]
    rfl
  · rw [if_neg (fun hh => h (serializeAddress_inj hh)), if_neg h]
    rfl

theorem pushEdge_keys (m : AddressMap (List Address)) (a ea : Address) :
    (pushEdge m a ea).keys = m.keys := by
  show jsKeys (m.data.map _) = jsKeys m.data
  unfold jsKeys
  rw [List.map_map]
  apply List.map_congr_left
  intro p hp
  by_cases h : p.1 = serializeAddress a
  · simp [h]
  · simp [h]

theorem pushEdge_getAll_cases (m : AddressMap (List Address)) (a ea : Address)
    (hwf : m.Wf) (r2 : Entry (List Address))
    (h : r2 ∈ (pushEdge m a ea).getAll) :
    r2 ∈ m.getAll ∨
      (∃ r ∈ m.getAll, r.address = a ∧ r2 = ⟨r.address, r.rest ++ [ea]⟩) := by
  unfold pushEdge AddressMap.getAll at h
  rw [List.map_map] at h
  rcases List.mem_map.mp h with ⟨p, hp, he⟩
  by_cases hk : p.1 = serializeAddress a
  · right
    refine ⟨p.2, List.mem_map_of_mem (fun q => q.2) hp, ?_, ?_⟩
    · exact serializeAddress_inj ((hwf.2 p hp).symm.trans hk)
    · rw [← he]
      simp [hk]
  · left
    rw [← he]
    have : (fun p : String × Entry (List Address) =>
        (if p.1 = serializeAddress a then (p.1, (⟨p.2.address, p.2.rest ++ [ea]⟩ : Entry (List Address))) else p).2) p = p.2 := by
      simp [hk]
    rw [show ((fun x : String × Entry (List Address) => x.2) ∘
        (fun p : String × Entry (List Address) =>
          if p.1 = serializeAddress a then (p.1, (⟨p.2.address, p.2.rest ++ [ea]⟩ : Entry (List Address))) else p)) p
        = p.2 from this]
    exact List.mem_map_of_mem (fun q => q.2) hp

theorem pushEdge_wf (m : AddressMap (List Address)) (a ea : Address)
    (hwf : m.Wf) : (pushEdge m a ea).Wf := by
  constructor
  · rw [pushEdge_keys]
    exact hwf.1
  · intro p hp
    unfold pushEdge at hp
    rcases List.mem_map.mp hp with ⟨q, hq, he⟩
    by_cases hk : q.1 = serializeAddress a
    · rw [← he, if_pos hk]
      exact hwf.2 q hq
    · rw [← he, if_neg hk]
      exact hwf.2 q hq

theorem Graph.addEdgeS_noop {NP EP : Type} [DecidableEq NP] [DecidableEq EP]
    {g : Graph NP EP} {e : Entry (EdgeRest EP)}
    (h : g.getEdge e.address = some e) : g.addEdgeS e = (g, none) := by
  unfold Graph.addEdgeS
  rw [h]
  dsimp only
  rw [if_pos rfl]

theorem Graph.addEdgeS_conflict {NP EP : Type} [DecidableEq NP] [DecidableEq EP]
    {g : Graph NP EP} {e f : Entry (EdgeRest EP)}
    (h : g.getEdge e.address = some f) (hne : f ≠ e) :
    g.addEdgeS e = (g, some ("edge at address " ++ serializeAddress e.address ++
      " exists with distinct contents")) := by
  unfold Graph.addEdgeS
  rw [h]
  dsimp only
  rw [if_neg hne]

theorem Graph.addEdgeS_missing_src {NP EP : Type} [DecidableEq NP] [DecidableEq EP]
    {g : Graph NP EP} {e : Entry (EdgeRest EP)}
    (h : g.getEdge e.address = none) (hs : g.getNode e.src = none) :
    g.addEdgeS e = (g, some ("source " ++ serializeAddress e.src ++
      " does not exist")) := by
  unfold Graph.addEdgeS
  rw [h]
  dsimp only
  rw [hs]
  rfl

theorem Graph.addEdgeS_missing_dst {NP EP : Type} [DecidableEq NP] [DecidableEq EP]
    {g : Graph NP EP} {e : Entry (EdgeRest EP)} {ns : Entry NP}
    (h : g.getEdge e.address = none) (hs : g.getNode e.src = some ns)
    (hd : g.getNode e.dst = none) :
    g.addEdgeS e = (g, some ("source " ++ serializeAddress e.dst ++
      " does not exist")) := by
  unfold Graph.addEdgeS
  rw [h]
  dsimp only
  rw [hs, hd]
  rfl

theorem Graph.addEdgeS_insert {NP EP : Type} [DecidableEq NP] [DecidableEq EP]
    {g : Graph NP EP} {e : Entry (EdgeRest EP)} {ns nd : Entry NP}
    (h : g.getEdge e.address = none) (hs : g.getNode e.src = some ns)
    (hd : g.getNode e.dst = some nd) :
    g.addEdgeS e =
      ({ g with
          edges := g.edges.add e,
          outEdges := pushEdge g.outEdges e.src e.address,
          inEdges := pushEdge g.inEdges e.dst e.address }, none) := by
  unfold Graph.addEdgeS
  rw [h]
  dsimp only
  rw [hs, hd]
  rfl

theorem Graph.addEdgeS_fst_of_err {NP EP : Type} [DecidableEq NP] [DecidableEq EP]
    (g : Graph NP EP) (e : Entry (EdgeRest EP)) (msg : String)
    (h : (g.addEdgeS e).2 = some msg) : (g.addEdgeS e).1 = g := by
  cases hg : g.getEdge e.address with
  | some f =>
    by_cases he : f = e
    · rw [he] at hg
      rw [Graph.addEdgeS_noop hg]
    · rw [Graph.addEdgeS_conflict hg he]
  | none =>
    cases hs : g.getNode e.src with
    | none => rw [Graph.addEdgeS_missing_src hg hs]
    | some ns =>
      cases hd : g.getNode e.dst with
      | none => rw [Graph.addEdgeS_missing_dst hg hs hd]
      | some nd =>
        rw [Graph.addEdgeS_insert hg hs hd] at h
        simp at h

theorem Graph.nodes_addEdgeS {NP EP : Type} [DecidableEq NP] [DecidableEq EP]
    (g : Graph NP EP) (e : Entry (EdgeRest EP)) :
    (g.addEdgeS e).1.nodes = g.nodes := by
  cases hg : g.getEdge e.address with
  | some f =>
    by_cases he : f = e
    · rw [he] at hg
      rw [Graph.addEdgeS_noop hg]
    · rw [Graph.addEdgeS_conflict hg he]
  | none =>
    cases hs : g.getNode e.src with
    | none => rw [Graph.addEdgeS_missing_src hg hs]
    | some ns =>
      cases hd : g.getNode e.dst with
      | none => rw [Graph.addEdgeS_missing_dst hg hs hd]
      | some nd => rw [Graph.addEdgeS_insert hg hs hd]

theorem Graph.getNode_addEdgeS_fst {NP EP : Type} [DecidableEq NP] [DecidableEq EP]
    (g : Graph NP EP) (e : Entry (EdgeRest EP)) (a : Address) :
    (g.addEdgeS e).1.getNode a = g.getNode a := by
  show (g.addEdgeS e).1.nodes.get a = g.nodes.get a
  rw [Graph.nodes_addEdgeS]

theorem Graph.getEdge_addEdgeS {NP EP : Type} [DecidableEq NP] [DecidableEq EP]
    {g g2 : Graph NP EP} {e : Entry (EdgeRest EP)}
    (hok : g.addEdgeS e = (g2, none)) (a : Address) :
    g2.getEdge a = if a = e.address then some e else g.getEdge a := by
  cases hg : g.getEdge e.address with
  | some f =>
    by_cases he : f = e
    · rw [he] at hg
      rw [Graph.addEdgeS_noop hg] at hok
      cases hok
      by_cases ha : a = e.address
      · rw [if_pos ha, ha, hg]
      · rw [if_neg ha]
    · rw [Graph.addEdgeS_conflict hg he] at hok
      cases hok
  | none =>
    cases hs : g.getNode e.src with
    | none =>
      rw [Graph.addEdgeS_missing_src hg hs] at hok
      cases hok
    | some ns =>
      cases hd : g.getNode e.dst with
      | none =>
        rw [Graph.addEdgeS_missing_dst hg hs hd] at hok
        cases hok
      | some nd =>
        rw [Graph.addEdgeS_insert hg hs hd] at hok
        cases hok
        show (g.edges.add e).get a = _
        exact AddressMap.get_add_fresh g.edges e hg a

theorem Graph.countOut_eq_none {NP EP : Type} (g : Graph NP EP) (a ea : Address)
    (h : g.outEdges.get a = none) : g.countOut a ea = 0 := by
  unfold Graph.countOut
  rw [h]

theorem Graph.countOut_eq_some {NP EP : Type} (g : Graph NP EP) (a ea : Address)
    (r : Entry (List Address)) (h : g.outEdges.get a = some r) :
    g.countOut a ea = r.rest.count ea := by
  unfold Graph.countOut
  rw [h]

theorem Graph.countIn_eq_none {NP EP : Type} (g : Graph NP EP) (a ea : Address)
    (h : g.inEdges.get a = none) : g.countIn a ea = 0 := by
  unfold Graph.countIn
  rw [h]

theorem Graph.countIn_eq_some {NP EP : Type} (g : Graph NP EP) (a ea : Address)
    (r : Entry (List Address)) (h : g.inEdges.get a = some r) :
    g.countIn a ea = r.rest.count ea := by
  unfold Graph.countIn
  rw [h]

theorem count_append_one (l : List Address) (a : Address) :
    (l ++ [a]).count a = l.count a + 1 := by
  rw [List.count_append]
  simp

theorem count_append_ne (l : List Address) (a b : Address) (h : a ≠ b) :
    (l ++ [b]).count a = l.count a := by
  rw [List.count_append]
  simp [List.count_cons, h]

theorem Graph.wf_addEdgeS {NP EP : Type} [DecidableEq NP] [DecidableEq EP]
    {g g2 : Graph NP EP} {e : Entry (EdgeRest EP)} (hwf : g.Wf)
    (hok : g.addEdgeS e = (g2, none)) : g2.Wf := by
  cases hg : g.getEdge e.address with
  | some f =>
    by_cases he : f = e
    · rw [he] at hg
      rw [Graph.addEdgeS_noop hg] at hok
      cases hok
      exact hwf
    · rw [Graph.addEdgeS_conflict hg he] at hok
      cases hok
  | none =>
    cases hs : g.getNode e.src with
    | none =>
      rw [Graph.addEdgeS_missing_src hg hs] at hok
      cases hok
    | some ns =>
      cases hd : g.getNode e.dst with
      | none =>
        rw [Graph.addEdgeS_missing_dst hg hs hd] at hok
        cases hok
      | some nd =>
        rw [Graph.addEdgeS_insert hg hs hd] at hok
        cases hok
        obtain ⟨hn, hedg, hout, hin, hko, hki, hedge, hsout, hsin⟩ := hwf
        have hge : g.edges.get e.address = none := hg
        have hsrckey : serializeAddress e.src ∈ g.nodes.keys := by
          by_contra hnk
          have := (AddressMap.get_eq_none_iff g.nodes e.src).mpr hnk
          rw [show g.nodes.get e.src = some ns from hs] at this
          exact Option.noConfusion this
        have hdstkey : serializeAddress e.dst ∈ g.nodes.keys := by
          by_contra hnk
          have := (AddressMap.get_eq_none_iff g.nodes e.dst).mpr hnk
          rw [show g.nodes.get e.dst = some nd from hd] at this
          exact Option.noConfusion this
        have hgetE : ∀ a, (g.edges.add e).get a =
            if a = e.address then some e else g.edges.get a :=
          AddressMap.get_add_fresh g.edges e hge
        refine ⟨hn, AddressMap.wf_add_fresh g.edges e hedg hge,
          pushEdge_wf g.outEdges e.src e.address hout,
          pushEdge_wf g.inEdges e.dst e.address hin, ?_, ?_, ?_, ?_, ?_⟩
        · show (pushEdge g.outEdges e.src e.address).keys = g.nodes.keys
          rw [pushEdge_keys]
          exact hko
        · show (pushEdge g.inEdges e.dst e.address).keys = g.nodes.keys
          rw [pushEdge_keys]
          exact hki
        · intro e2 he2
          rw [show ({ g with
              edges := g.edges.add e,
              outEdges := pushEdge g.outEdges e.src e.address,
              inEdges := pushEdge g.inEdges e.dst e.address } : Graph NP EP).getAllEdges
              = g.edges.getAll ++ [e] from
            AddressMap.getAll_add_fresh g.edges e hge] at he2
          rcases List.mem_append.mp he2 with hold | hnew
          · obtain ⟨ha1, ha2, hc1, hc2⟩ := hedge e2 hold
            have hne : e2.address ≠ e.address := by
              intro hcon
              have hx := AddressMap.getAll_get hedg hold
              rw [hcon] at hx
              rw [hx] at hge
              exact Option.noConfusion hge
            refine ⟨ha1, ha2, ?_, ?_⟩
            · by_cases hsrceq : e2.src = e.src
              · cases hro : g.outEdges.get e2.src with
                | none =>
                  rw [Graph.countOut_eq_none _ _ _ hro] at hc1
                  exact absurd hc1 (by simp)
                | some r =>
                  rw [Graph.countOut_eq_some _ _ _ r hro] at hc1
                  have hnewget : (pushEdge g.outEdges e.src e.address).get e2.src =
                      some ⟨r.address, r.rest ++ [e.address]⟩ := by
                    rw [pushEdge_get, if_pos hsrceq, ← hsrceq, hro]
                    rfl
                  rw [Graph.countOut_eq_some _ _ _ _ hnewget]
                  rw [count_append_ne _ _ _ hne]
                  exact hc1
              · have hnewget : (pushEdge g.outEdges e.src e.address).get e2.src =
                    g.outEdges.get e2.src := by
                  rw [pushEdge_get, if_neg hsrceq]
                cases hro : g.outEdges.get e2.src with
                | none =>
                  rw [Graph.countOut_eq_none _ _ _ hro] at hc1
                  exact absurd hc1 (by simp)
                | some r =>
                  rw [Graph.countOut_eq_some _ _ _ r hro] at hc1
                  rw [Graph.countOut_eq_some _ _ _ r (hnewget.trans hro)]
                  exact hc1
            · by_cases hdsteq : e2.dst = e.dst
              · cases hro : g.inEdges.get e2.dst with
                | none =>
                  rw [Graph.countIn_eq_none _ _ _ hro] at hc2
                  exact absurd hc2 (by simp)
                | some r =>
                  rw [Graph.countIn_eq_some _ _ _ r hro] at hc2
                  have hnewget : (pushEdge g.inEdges e.dst e.address).get e2.dst =
                      some ⟨r.address, r.rest ++ [e.address]⟩ := by
                    rw [pushEdge_get, if_pos hdsteq, ← hdsteq, hro]
                    rfl
                  rw [Graph.countIn_eq_some _ _ _ _ hnewget]
                  rw [count_append_ne _ _ _ hne]
                  exact hc2
              · have hnewget : (pushEdge g.inEdges e.dst e.address).get e2.dst =
                    g.inEdges.get e2.dst := by
                  rw [pushEdge_get, if_neg hdsteq]
                cases hro : g.inEdges.get e2.dst with
                | none =>
                  rw [Graph.countIn_eq_none _ _ _ hro] at hc2
                  exact absurd hc2 (by simp)
                | some r =>
                  rw [Graph.countIn_eq_some _ _ _ r hro] at hc2
                  rw [Graph.countIn_eq_some _ _ _ r (hnewget.trans hro)]
                  exact hc2
          · rw [List.mem_singleton] at hnew
            subst hnew
            refine ⟨?_, ?_, ?_, ?_⟩
            · show (g.getNode e2.src).isSome = true
              rw [hs]
              rfl
            · show (g.getNode e2.dst).isSome = true
              rw [hd]
              rfl
            · cases hro : g.outEdges.get e2.src with
              | none =>
                have := (AddressMap.get_eq_none_iff g.outEdges e2.src).mp hro
                rw [hko] at this
                exact absurd hsrckey this
              | some r =>
                have hnewget : (pushEdge g.outEdges e2.src e2.address).get e2.src =
                    some ⟨r.address, r.rest ++ [e2.address]⟩ := by
                  rw [pushEdge_get, if_pos rfl, hro]
                  rfl
                rw [Graph.countOut_eq_some _ _ _ _ hnewget]
                have hnotm : e2.address ∉ r.rest := by
                  intro hm
                  have := hsout r (AddressMap.get_mem_getAll hro) e2.address hm
                  rw [show g.getEdge e2.address = none from hge] at this
                  exact Option.noConfusion this
                rw [count_append_one, List.count_eq_zero_of_not_mem hnotm]
            · cases hro : g.inEdges.get e2.dst with
              | none =>
                have := (AddressMap.get_eq_none_iff g.inEdges e2.dst).mp hro
                rw [hki] at this
                exact absurd hdstkey this
              | some r =>
                have hnewget : (pushEdge g.inEdges e2.dst e2.address).get e2.dst =
                    some ⟨r.address, r.rest ++ [e2.address]⟩ := by
                  rw [pushEdge_get, if_pos rfl, hro]
                  rfl
                rw [Graph.countIn_eq_some _ _ _ _ hnewget]
                have hnotm : e2.address ∉ r.rest := by
                  intro hm
                  have := hsin r (AddressMap.get_mem_getAll hro) e2.address hm
                  rw [show g.getEdge e2.address = none from hge] at this
                  exact Option.noConfusion this
                rw [count_append_one, List.count_eq_zero_of_not_mem hnotm]
        · intro record hrec ea hea
          rcases pushEdge_getAll_cases g.outEdges e.src e.address hout record hrec
            with hcase | ⟨r, hr, hra, hrec2⟩
          · have hold := hsout record hcase ea hea
            have hnee : ea ≠ e.address := by
              intro hcon
              rw [hcon, show g.getEdge e.address = none from hge] at hold
              exact Option.noConfusion hold
            show ((g.edges.add e).get ea).map Entry.src = some record.address
            rw [hgetE, if_neg hnee]
            exact hold
          · subst hrec2
            rcases List.mem_append.mp hea with hea2 | hea2
            · have hold := hsout r hr ea hea2
              have hnee : ea ≠ e.address := by
                intro hcon
                rw [hcon, show g.getEdge e.address = none from hge] at hold
                exact Option.noConfusion hold
              show ((g.edges.add e).get ea).map Entry.src = some r.address
              rw [hgetE, if_neg hnee]
              exact hold
            · rw [List.mem_singleton] at hea2
              subst hea2
              show ((g.edges.add e).get e.address).map Entry.src = some r.address
              rw [hgetE, if_pos rfl]
              rw [hra]
              rfl
        · intro record hrec ea hea
          rcases pushEdge_getAll_cases g.inEdges e.dst e.address hin record hrec
            with hcase | ⟨r, hr, hra, hrec2⟩
          · have hold := hsin record hcase ea hea
            have hnee : ea ≠ e.address := by
              intro hcon
              rw [hcon, show g.getEdge e.address = none from hge] at hold
              exact Option.noConfusion hold
            show ((g.edges.add e).get ea).map Entry.dst = some record.address
            rw [hgetE, if_neg hnee]
            exact hold
          · subst hrec2
            rcases List.mem_append.mp hea with hea2 | hea2
            · have hold := hsin r hr ea hea2
              have hnee : ea ≠ e.address := by
                intro hcon
                rw [hcon, show g.getEdge e.address = none from hge] at hold
                exact Option.noConfusion hold
              show ((g.edges.add e).get ea).map Entry.dst = some r.address
              rw [hgetE, if_neg hnee]
              exact hold
            · rw [List.mem_singleton] at hea2
              subst hea2
              show ((g.edges.add e).get e.address).map Entry.dst = some r.address
              rw [hgetE, if_pos rfl]
              rw [hra]
              rfl

theorem Graph.addNode_ok {NP EP : Type} [DecidableEq NP] {g g2 : Graph NP EP}
    {n : Entry NP} : g.addNode n = Except.ok g2 ↔ g.addNodeS n = (g2, none) := by
  unfold Graph.addNode
  cases h : g.addNodeS n with
  | mk gg msgo =>
    cases msgo with
    | none =>
      simp only []
      constructor
      · intro he
        cases he
        rfl
      · intro he
        cases he
        rfl
    | some msg =>
      simp only []
      constructor
      · intro he
        cases he
      · intro he
        cases he

theorem Graph.addEdge_ok {NP EP : Type} [DecidableEq NP] [DecidableEq EP]
    {g g2 : Graph NP EP} {e : Entry (EdgeRest EP)} :
    g.addEdge e = Except.ok g2 ↔ g.addEdgeS e = (g2, none) := by
  unfold Graph.addEdge
  cases h : g.addEdgeS e with
  | mk gg msgo =>
    cases msgo with
    | none =>
      simp only []
      constructor
      · intro he
        cases he
        rfl
      · intro he
        cases he
        rfl
    | some msg =>
      simp only []
      constructor
      · intro he
        cases he
      · intro he
        cases he

theorem forEachE_nil {σ α : Type} (f : σ → α → Except String σ) (s : σ) :
    forEachE f s ([] : List α) = Except.ok s := rfl

theorem forEachE_cons {σ α : Type} (f : σ → α → Except String σ) (s : σ)
    (a : α) (l : List α) :
    forEachE f s (a :: l) = match f s a with
      | Except.ok s2 => forEachE f s2 l
      | Except.error e => Except.error e := rfl

theorem forEachE_preserves {σ α : Type} (P : σ → Prop)
    (f : σ → α → Except String σ)
    (hstep : ∀ s a s2, P s → f s a = Except.ok s2 → P s2) :
    ∀ (l : List α) (s s2 : σ), P s → forEachE f s l = Except.ok s2 → P s2 := by
  intro l
  induction l with
  | nil =>
    intro s s2 hp h
    cases h
    exact hp
  | cons a l ih =>
    intro s s2 hp h
    cases hf : f s a with
    | ok s3 =>
      have h2 : forEachE f s (a :: l) = forEachE f s3 l := by
        rw [forEachE_cons, hf]
      rw [h2] at h
      exact ih s3 s2 (hstep s a s3 hp hf) h
    | error e =>
      have h2 : forEachE f s (a :: l) = Except.error e := by
        rw [forEachE_cons, hf]
      rw [h2] at h
      cases h

theorem forEachE_append {σ α : Type} (f : σ → α → Except String σ)
    (l1 l2 : List α) (s : σ) :
    forEachE f s (l1 ++ l2) = match forEachE f s l1 with
      | Except.ok s2 => forEachE f s2 l2
      | Except.error e => Except.error e := by
  induction l1 generalizing s with
  | nil => rfl
  | cons a l ih =>
    rw [List.cons_append, forEachE_cons, forEachE_cons]
    cases hf : f s a with
    | ok s2 =>
      dsimp only
      exact ih s2
    | error e => rfl

theorem Graph.wf_mergeNodeStep {NP EP : Type} [DecidableEq NP] [DecidableEq EP]
    (g2 : Graph NP EP) (nr : Entry NP → Entry NP → Except String (Entry NP))
    (r : Graph NP EP) (node : Entry NP) (r2 : Graph NP EP) (hwf : r.Wf)
    (h : mergeNodeStep g2 nr r node = Except.ok r2) : r2.Wf := by
  unfold mergeNodeStep at h
  cases hn : g2.getNode node.address with
  | some n2 =>
    rw [hn] at h
    dsimp only at h
    cases hres : nr node n2 with
    | ok resolved =>
      rw [hres] at h
      exact Graph.wf_addNodeS hwf (Graph.addNode_ok.mp h)
    | error e =>
      rw [hres] at h
      cases h
  | none =>
    rw [hn] at h
    dsimp only at h
    exact Graph.wf_addNodeS hwf (Graph.addNode_ok.mp h)

theorem Graph.wf_mergeNode2Step {NP EP : Type} [DecidableEq NP] [DecidableEq EP]
    (r : Graph NP EP) (node : Entry NP) (r2 : Graph NP EP) (hwf : r.Wf)
    (h : mergeNode2Step r node = Except.ok r2) : r2.Wf := by
  unfold mergeNode2Step at h
  cases hn : r.getNode node.address with
  | some _ =>
    rw [hn] at h
    cases h
    exact hwf
  | none =>
    rw [hn] at h
    dsimp only at h
    exact Graph.wf_addNodeS hwf (Graph.addNode_ok.mp h)

theorem Graph.wf_mergeEdgeStep {NP EP : Type} [DecidableEq NP] [DecidableEq EP]
    (g2 : Graph NP EP)
    (er : Entry (EdgeRest EP) → Entry (EdgeRest EP) →
      Except String (Entry (EdgeRest EP)))
    (r : Graph NP EP) (edge : Entry (EdgeRest EP)) (r2 : Graph NP EP) (hwf : r.Wf)
    (h : mergeEdgeStep g2 er r edge = Except.ok r2) : r2.Wf := by
  unfold mergeEdgeStep at h
  cases hn : g2.getEdge edge.address with
  | some e2 =>
    rw [hn] at h
    dsimp only at h
    cases hres : er edge e2 with
    | ok resolved =>
      rw [hres] at h
      exact Graph.wf_addEdgeS hwf (Graph.addEdge_ok.mp h)
    | error e =>
      rw [hres] at h
      cases h
  | none =>
    rw [hn] at h
    dsimp only at h
    exact Graph.wf_addEdgeS hwf (Graph.addEdge_ok.mp h)

theorem Graph.wf_mergeEdge2Step {NP EP : Type} [DecidableEq NP] [DecidableEq EP]
    (r : Graph NP EP) (edge : Entry (EdgeRest EP)) (r2 : Graph NP EP) (hwf : r.Wf)
    (h : mergeEdge2Step r edge = Except.ok r2) : r2.Wf := by
  unfold mergeEdge2Step at h
  cases hn : r.getEdge edge.address with
  | some _ =>
    rw [hn] at h
    cases h
    exact hwf
  | none =>
    rw [hn] at h
    dsimp only at h
    exact Graph.wf_addEdgeS hwf (Graph.addEdge_ok.mp h)

theorem Graph.wf_merge {NP EP : Type} [DecidableEq NP] [DecidableEq EP]
    (g1 g2 : Graph NP EP)
    (nr : Entry NP → Entry NP → Except String (Entry NP))
    (er : Entry (EdgeRest EP) → Entry (EdgeRest EP) →
      Except String (Entry (EdgeRest EP)))
    (g : Graph NP EP) (h : Graph.merge g1 g2 nr er = Except.ok g) : g.Wf := by
  unfold Graph.merge at h
  cases h1 : forEachE (mergeNodeStep g2 nr) Graph.empty g1.getAllNodes with
  | error e =>
    rw [h1] at h
    cases h
  | ok r1 =>
    rw [h1] at h
    dsimp only at h
    have hw1 : r1.Wf := forEachE_preserves Graph.Wf _
      (fun s a s2 hp hf => Graph.wf_mergeNodeStep g2 nr s a s2 hp hf)
      g1.getAllNodes Graph.empty r1 Graph.wf_graph_empty h1
    cases h2 : forEachE mergeNode2Step r1 g2.getAllNodes with
    | error e =>
      rw [h2] at h
      cases h
    | ok r2 =>
      rw [h2] at h
      dsimp only at h
      have hw2 : r2.Wf := forEachE_preserves Graph.Wf _
        (fun s a s2 hp hf => Graph.wf_mergeNode2Step s a s2 hp hf)
        g2.getAllNodes r1 r2 hw1 h2
      cases h3 : forEachE (mergeEdgeStep g2 er) r2 g1.getAllEdges with
      | error e =>
        rw [h3] at h
        cases h
      | ok r3 =>
        rw [h3] at h
        dsimp only at h
        have hw3 : r3.Wf := forEachE_preserves Graph.Wf _
          (fun s a s2 hp hf => Graph.wf_mergeEdgeStep g2 er s a s2 hp hf)
          g1.getAllEdges r2 r3 hw2 h3
        exact forEachE_preserves Graph.Wf _
          (fun s a s2 hp hf => Graph.wf_mergeEdge2Step s a s2 hp hf)
          g2.getAllEdges r3 g hw3 h

theorem Graph.wf_mergeConservative {NP EP : Type} [DecidableEq NP] [DecidableEq EP]
    (g1 g2 : Graph NP EP) (g : Graph NP EP)
    (h : Graph.mergeConservative g1 g2 = Except.ok g) : g.Wf :=
  Graph.wf_merge g1 g2 _ _ g h

theorem Graph.wf_fromJSON {NP EP : Type} [DecidableEq NP] [DecidableEq EP]
    (json : GraphJSON NP EP) (g : Graph NP EP)
    (h : Graph.fromJSON json = Except.ok g) : g.Wf := by
  unfold Graph.fromJSON at h
  cases hn : AddressMap.fromJSON json.nodes with
  | none =>
    rw [hn] at h
    cases h
  | some nodesMap =>
    rw [hn] at h
    dsimp only at h
    cases he : AddressMap.fromJSON json.edges with
    | none =>
      rw [he] at h
      cases h
    | some edgesMap =>
      rw [he] at h
      dsimp only at h
      cases h1 : forEachE (fun (g : Graph NP EP) (node : Entry NP) => g.addNode node)
          Graph.empty nodesMap.getAll with
      | error e =>
        rw [h1] at h
        cases h
      | ok gmid =>
        rw [h1] at h
        dsimp only at h
        have hw1 : gmid.Wf := forEachE_preserves Graph.Wf _
          (fun s a s2 hp hf => Graph.wf_addNodeS hp (Graph.addNode_ok.mp hf))
          nodesMap.getAll Graph.empty gmid Graph.wf_graph_empty h1
        exact forEachE_preserves Graph.Wf _
          (fun s a s2 hp hf => Graph.wf_addEdgeS hp (Graph.addEdge_ok.mp hf))
          edgesMap.getAll gmid g hw1 h

/-- C1 counterexample: two JS address objects that are field-wise equal in
all four fields but were constructed with their fields assigned in different
orders receive different serializations under JSON.stringify, so the map key
is not independent of field-assignment order.  propsOrder1 is the canonical
property order of serializeAddress and propsOrder2 is the order used by the
repository's own test helper. -/
theorem claim_C1_counterexample :
    addressFieldsEqual propsOrder1 propsOrder2 ∧
    stringifyPairs propsOrder1 ≠ stringifyPairs propsOrder2 ∧
    Address.jsProps ⟨"repo", "plugin", "NODE", "a"⟩ = propsOrder1 := by
  decide

/-- C1 amended: for addresses whose fields are assigned in one fixed
(declaration) order, the serialization is a deterministic injective function
of the four fields: keys are equal iff the addresses are field-wise equal. -/
theorem claim_C1_amended : ∀ (a b : Address),
    (serializeAddress a = serializeAddress b ↔ a = b) ∧
    serializeAddress a = stringifyPairs a.jsProps :=
  fun a b => ⟨serializeAddress_eq_iff a b, rfl⟩

/-- C2: adding the identical node twice is a no-op the second time (the node
count is unchanged), and adding a different node at an occupied address
throws the distinct-contents conflict and leaves the graph unchanged. -/
theorem claim_C2 (NP EP : Type) [DecidableEq NP] [DecidableEq EP] :
    (∀ (g g2 : Graph NP EP) (n : Entry NP), g.addNodeS n = (g2, none) →
      g2.addNodeS n = (g2, none) ∧
      (g2.addNodeS n).1.getAllNodes.length = g2.getAllNodes.length) ∧
    (∀ (g : Graph NP EP) (n m : Entry NP),
      g.getNode n.address = some m → m ≠ n →
      g.addNodeS n = (g, some ("node at address " ++ serializeAddress n.address ++
        " exists with distinct contents"))) := by
  constructor
  · intro g g2 n hok
    have hget : g2.getNode n.address = some n := by
      rw [Graph.getNode_addNodeS hok n.address, if_pos rfl]
    have hnoop := Graph.addNodeS_noop hget
    refine ⟨hnoop, ?_⟩
    rw [hnoop]
  · intro g n m hget hne
    exact Graph.addNodeS_conflict hget hne

/-- C2 witness at a concrete graph: the second identical add is a no-op, and
a different payload at the same address is rejected with the graph intact. -/
theorem claim_C2_witness :
    (Graph.empty.addNodeS nodeA = (graphA, none) ∧
      graphA.addNodeS nodeA = (graphA, none)) ∧
    (graphA.getNode nodeA2.address = some nodeA ∧ nodeA ≠ nodeA2 ∧
      graphA.addNodeS nodeA2 = (graphA, some ("node at address " ++
        serializeAddress nodeA2.address ++ " exists with distinct contents"))) :=
  ⟨⟨by decide, ((claim_C2 Nat Nat).1 Graph.empty graphA nodeA (by decide)).1⟩,
   ⟨by decide, by decide,
    (claim_C2 Nat Nat).2 graphA nodeA2 nodeA (by decide) (by decide)⟩⟩

/-- C3 counterexample: in a reachable well-formed graph that already holds a
different edge at the same address, addEdge with both that address conflict
and a missing src endpoint fails with the distinct-contents conflict message,
not with a missing-endpoint message, because the conflict check runs first. -/
theorem claim_C3_counterexample :
    Graph.Wf graphAE ∧
    graphAE.getNode edgeConflictMissing.src = none ∧
    (graphAE.addEdgeS edgeConflictMissing).2 =
      some ("edge at address " ++ serializeAddress edgeConflictMissing.address ++
        " exists with distinct contents") ∧
    (graphAE.addEdgeS edgeConflictMissing).2 ≠
      some ("source " ++ serializeAddress edgeConflictMissing.src ++
        " does not exist") ∧
    (graphAE.addEdgeS edgeConflictMissing).2 ≠
      some ("source " ++ serializeAddress edgeConflictMissing.dst ++
        " does not exist") := by
  decide

/-- C3 amended: when no edge is already stored at e.address and either
endpoint is missing, addEdge throws one of the two missing-endpoint messages
and the graph is unchanged; moreover every failing addEdge, for any reason,
leaves the graph unchanged, because all checks precede every mutation. -/
theorem claim_C3_amended (NP EP : Type) [DecidableEq NP] [DecidableEq EP] :
    (∀ (g : Graph NP EP) (e : Entry (EdgeRest EP)),
      g.getEdge e.address = none →
      (g.getNode e.src = none ∨ g.getNode e.dst = none) →
      (g.addEdgeS e).1 = g ∧
        ((g.addEdgeS e).2 =
          some ("source " ++ serializeAddress e.src ++ " does not exist") ∨
         (g.addEdgeS e).2 =
          some ("source " ++ serializeAddress e.dst ++ " does not exist"))) ∧
    (∀ (g : Graph NP EP) (e : Entry (EdgeRest EP)) (msg : String),
      (g.addEdgeS e).2 = some msg → (g.addEdgeS e).1 = g) := by
  constructor
  · intro g e hge hmiss
    cases hs : g.getNode e.src with
    | none =>
      rw [Graph.addEdgeS_missing_src hge hs]
      exact ⟨rfl, Or.inl rfl⟩
    | some ns =>
      cases hd : g.getNode e.dst with
      | none =>
        rw [Graph.addEdgeS_missing_dst hge hs hd]
        exact ⟨rfl, Or.inr rfl⟩
      | some nd =>
        rcases hmiss with hm | hm
        · rw [hs] at hm
          cases hm
        · rw [hd] at hm
          cases hm
  · intro g e msg h
    exact Graph.addEdgeS_fst_of_err g e msg h

/-- C3 witness at a concrete graph: an edge whose dst is absent is rejected
with a missing-endpoint message and the graph is unchanged. -/
theorem claim_C3_witness :
    graphA.getEdge edgeADangling.address = none ∧
    graphA.getNode edgeADangling.dst = none ∧
    (graphA.addEdgeS edgeADangling).1 = graphA ∧
    ((graphA.addEdgeS edgeADangling).2 =
      some ("source " ++ serializeAddress edgeADangling.src ++ " does not exist") ∨
     (graphA.addEdgeS edgeADangling).2 =
      some ("source " ++ serializeAddress edgeADangling.dst ++ " does not exist")) :=
  ⟨by decide, by decide,
   ((claim_C3_amended Nat Nat).1 graphA edgeADangling (by decide)
     (Or.inr (by decide))).1,
   ((claim_C3_amended Nat Nat).1 graphA edgeADangling (by decide)
     (Or.inr (by decide))).2⟩

/-- C5: the code reports a missing dst endpoint with the same wording as a
missing src endpoint, calling both the source: at a concrete graph whose
node a is present and whose dst b is absent, the thrown message is the
source-labelled one applied to the dst address. -/
theorem claim_C5_bug :
    (graphA.getNode edgeADangling.src).isSome = true ∧
    graphA.getNode edgeADangling.dst = none ∧
    graphA.getEdge edgeADangling.address = none ∧
    (graphA.addEdgeS edgeADangling).2 =
      some ("source " ++ serializeAddress edgeADangling.dst ++
        " does not exist") := by
  decide

/-- C6: for every well-formed non-empty AddressMap, fromJSON of toJSON
rebuilds the very same map (the address stripped by toJSON is reconstructed
from the key), and the rebuilt map is equal to the original under equals. -/
theorem claim_C6 (S : Type) [DecidableEq S] :
    ∀ (m : AddressMap S), m.Wf → m.data ≠ [] →
      AddressMap.fromJSON m.toJSON = some m ∧ m.equals m = true :=
  fun m hwf _ =>
    ⟨AddressMap.fromJSON_toJSON m hwf, AddressMap.equals_refl m hwf.1⟩

/-- C6 witness: the round trip at a concrete two-entry map. -/
theorem claim_C6_witness :
    mapAB.Wf ∧ mapAB.data ≠ [] ∧
    AddressMap.fromJSON mapAB.toJSON = some mapAB ∧
    mapAB.equals mapAB = true :=
  ⟨by decide, by decide,
   (claim_C6 Nat mapAB (by decide) (by decide)).1,
   (claim_C6 Nat mapAB (by decide) (by decide)).2⟩

/-- C4: after every successful addNode and addEdge on a well-formed graph,
and after every successful fromJSON, merge and mergeConservative, the
specification's invariants hold: the node map's keyset equals both adjacency
maps' keysets, and every edge occurs exactly once in the out-list at its src
and the in-list at its dst. -/
theorem claim_C4 (NP EP : Type) [DecidableEq NP] [DecidableEq EP] :
    (∀ (g g2 : Graph NP EP) (n : Entry NP), g.Wf →
      g.addNode n = Except.ok g2 → g2.ClaimedInvariants) ∧
    (∀ (g g2 : Graph NP EP) (e : Entry (EdgeRest EP)), g.Wf →
      g.addEdge e = Except.ok g2 → g2.ClaimedInvariants) ∧
    (∀ (json : GraphJSON NP EP) (g : Graph NP EP),
      Graph.fromJSON json = Except.ok g → g.ClaimedInvariants) ∧
    (∀ (g1 g2 : Graph NP EP)
      (nr : Entry NP → Entry NP → Except String (Entry NP))
      (er : Entry (EdgeRest EP) → Entry (EdgeRest EP) →
        Except String (Entry (EdgeRest EP))) (g : Graph NP EP),
      Graph.merge g1 g2 nr er = Except.ok g → g.ClaimedInvariants) ∧
    (∀ (g1 g2 g : Graph NP EP),
      Graph.mergeConservative g1 g2 = Except.ok g → g.ClaimedInvariants) :=
  ⟨fun _ _ n hwf hok =>
    Graph.claimedInvariants_of_wf (Graph.wf_addNodeS hwf (Graph.addNode_ok.mp hok)),
   fun _ _ e hwf hok =>
    Graph.claimedInvariants_of_wf (Graph.wf_addEdgeS hwf (Graph.addEdge_ok.mp hok)),
   fun json g hok =>
    Graph.claimedInvariants_of_wf (Graph.wf_fromJSON json g hok),
   fun g1 g2 nr er g hok =>
    Graph.claimedInvariants_of_wf (Graph.wf_merge g1 g2 nr er g hok),
   fun g1 g2 g hok =>
    Graph.claimedInvariants_of_wf (Graph.wf_mergeConservative g1 g2 g hok)⟩

/-- C4 witness: the invariants hold at a concrete graph built by addNode and
addEdge. -/
theorem claim_C4_witness :
    Graph.Wf graphA ∧ graphA.addEdge edgeAA = Except.ok graphAE ∧
    Graph.ClaimedInvariants graphAE :=
  ⟨by decide, rfl,
   (claim_C4 Nat Nat).2.1 graphA graphAE edgeAA (by decide) rfl⟩

/-- C10: self-loops are permitted.  In a well-formed graph holding a node at
a, adding an edge at a fresh address with src = dst = a succeeds, and the
edge then appears exactly once among the out-edges of a and exactly once
among the in-edges of a. -/
theorem claim_C10 (NP EP : Type) [DecidableEq NP] [DecidableEq EP] :
    ∀ (g : Graph NP EP) (a : Address) (e : Entry (EdgeRest EP)),
      g.Wf → (g.getNode a).isSome = true → g.getEdge e.address = none →
      e.src = a → e.dst = a →
      ∃ g2, g.addEdgeS e = (g2, none) ∧
        (∃ l, g2.getOutEdges a = Except.ok l ∧ l.count (some e) = 1) ∧
        (∃ l, g2.getInEdges a = Except.ok l ∧ l.count (some e) = 1) := by
  intro g a e hwf hnode hfresh hsrc hdst
  obtain ⟨hn, hedg, hout, hin, hko, hki, hedge, hsout, hsin⟩ := hwf
  cases hv : g.getNode a with
  | none =>
    rw [hv] at hnode
    exact absurd hnode (by simp)
  | some ns =>
    have hs : g.getNode e.src = some ns := by rw [hsrc, hv]
    have hd : g.getNode e.dst = some ns := by rw [hdst, hv]
    have hakey : serializeAddress a ∈ g.nodes.keys := by
      by_contra hnk
      have := (AddressMap.get_eq_none_iff g.nodes a).mpr hnk
      rw [show g.nodes.get a = some ns from hv] at this
      exact Option.noConfusion this
    have hge : g.edges.get e.address = none := hfresh
    have hgetE : ∀ x, (g.edges.add e).get x =
        if x = e.address then some e else g.edges.get x :=
      AddressMap.get_add_fresh g.edges e hge
    refine ⟨_, Graph.addEdgeS_insert hfresh hs hd, ?_, ?_⟩
    · cases hro : g.outEdges.get a with
      | none =>
        have := (AddressMap.get_eq_none_iff g.outEdges a).mp hro
        rw [hko] at this
        exact absurd hakey this
      | some r =>
        have hnewget : (pushEdge g.outEdges e.src e.address).get a =
            some ⟨r.address, r.rest ++ [e.address]⟩ := by
          rw [pushEdge_get, if_pos hsrc.symm, hsrc, hro]
          rfl
        have hgoe : ({ g with
                  edges := g.edges.add e,
                  outEdges := pushEdge g.outEdges e.src e.address,
                  inEdges := pushEdge g.inEdges e.dst e.address } : Graph NP EP).getOutEdges a =
            Except.ok ((r.rest ++ [e.address]).map (fun ea =>
              ({ g with
                  edges := g.edges.add e,
                  outEdges := pushEdge g.outEdges e.src e.address,
                  inEdges := pushEdge g.inEdges e.dst e.address } : Graph NP EP).getEdge ea)) := by
          unfold Graph.getOutEdges
          dsimp only
          rw [hnewget]
        refine ⟨_, hgoe, ?_⟩
        · rw [List.map_append, List.count_append]
          have hz : ((r.rest.map (fun ea =>
              ({ g with
                  edges := g.edges.add e,
                  outEdges := pushEdge g.outEdges e.src e.address,
                  inEdges := pushEdge g.inEdges e.dst e.address } : Graph NP EP).getEdge ea)).count
              (some e)) = 0 := by
            apply List.count_eq_zero_of_not_mem
            intro hmem
            rcases List.mem_map.mp hmem with ⟨ea, hea, hfe⟩
            have hfe2 : (g.edges.add e).get ea = some e := hfe
            by_cases heq : ea = e.address
            · rw [heq] at hea
              have := hsout r (AddressMap.get_mem_getAll hro) e.address hea
              rw [show g.getEdge e.address = none from hge] at this
              exact Option.noConfusion this
            · rw [hgetE, if_neg heq] at hfe2
              have := AddressMap.get_address hedg hfe2
              exact heq this.symm
          rw [hz]
          have ho : (([e.address].map (fun ea =>
              ({ g with
                  edges := g.edges.add e,
                  outEdges := pushEdge g.outEdges e.src e.address,
                  inEdges := pushEdge g.inEdges e.dst e.address } : Graph NP EP).getEdge ea)).count
              (some e)) = 1 := by
            rw [List.map_singleton]
            have : (g.edges.add e).get e.address = some e := by
              rw [hgetE, if_pos rfl]
            rw [show ({ g with
                  edges := g.edges.add e,
                  outEdges := pushEdge g.outEdges e.src e.address,
                  inEdges := pushEdge g.inEdges e.dst e.address } : Graph NP EP).getEdge e.address
                = some e from this]
            simp
          rw [ho]
    · cases hro : g.inEdges.get a with
      | none =>
        have := (AddressMap.get_eq_none_iff g.inEdges a).mp hro
        rw [hki] at this
        exact absurd hakey this
      | some r =>
        have hnewget : (pushEdge g.inEdges e.dst e.address).get a =
            some ⟨r.address, r.rest ++ [e.address]⟩ := by
          rw [pushEdge_get, if_pos hdst.symm, hdst, hro]
          rfl
        have hgie : ({ g with
                  edges := g.edges.add e,
                  outEdges := pushEdge g.outEdges e.src e.address,
                  inEdges := pushEdge g.inEdges e.dst e.address } : Graph NP EP).getInEdges a =
            Except.ok ((r.rest ++ [e.address]).map (fun ea =>
              ({ g with
                  edges := g.edges.add e,
                  outEdges := pushEdge g.outEdges e.src e.address,
                  inEdges := pushEdge g.inEdges e.dst e.address } : Graph NP EP).getEdge ea)) := by
          unfold Graph.getInEdges
          dsimp only
          rw [hnewget]
        refine ⟨_, hgie, ?_⟩
        · rw [List.map_append, List.count_append]
          have hz : ((r.rest.map (fun ea =>
              ({ g with
                  edges := g.edges.add e,
                  outEdges := pushEdge g.outEdges e.src e.address,
                  inEdges := pushEdge g.inEdges e.dst e.address } : Graph NP EP).getEdge ea)).count
              (some e)) = 0 := by
            apply List.count_eq_zero_of_not_mem
            intro hmem
            rcases List.mem_map.mp hmem with ⟨ea, hea, hfe⟩
            have hfe2 : (g.edges.add e).get ea = some e := hfe
            by_cases heq : ea = e.address
            · rw [heq] at hea
              have := hsin r (AddressMap.get_mem_getAll hro) e.address hea
              rw [show g.getEdge e.address = none from hge] at this
              exact Option.noConfusion this
            · rw [hgetE, if_neg heq] at hfe2
              have := AddressMap.get_address hedg hfe2
              exact heq this.symm
          rw [hz]
          have ho : (([e.address].map (fun ea =>
              ({ g with
                  edges := g.edges.add e,
                  outEdges := pushEdge g.outEdges e.src e.address,
                  inEdges := pushEdge g.inEdges e.dst e.address } : Graph NP EP).getEdge ea)).count
              (some e)) = 1 := by
            rw [List.map_singleton]
            have : (g.edges.add e).get e.address = some e := by
              rw [hgetE, if_pos rfl]
            rw [show ({ g with
                  edges := g.edges.add e,
                  outEdges := pushEdge g.outEdges e.src e.address,
                  inEdges := pushEdge g.inEdges e.dst e.address } : Graph NP EP).getEdge e.address
                = some e from this]
            simp
          rw [ho]

/-- C10 witness: the concrete self-loop at address x on the node a appears
exactly once among the out-edges and once among the in-edges of a. -/
theorem claim_C10_witness :
    Graph.Wf graphA ∧ (graphA.getNode addrA).isSome = true ∧
    graphA.getEdge edgeAA.address = none ∧
    ∃ g2, graphA.addEdgeS edgeAA = (g2, none) ∧
      (∃ l, g2.getOutEdges addrA = Except.ok l ∧ l.count (some edgeAA) = 1) ∧
      (∃ l, g2.getInEdges addrA = Except.ok l ∧ l.count (some edgeAA) = 1) :=
  ⟨by decide, by decide, by decide,
   claim_C10 Nat Nat graphA addrA edgeAA (by decide) (by decide) (by decide)
     (by decide) (by decide)⟩

theorem forEachS_bridge {σs σ α : Type} (fS : σs → α → σs × Option String)
    (fE : σ → α → Except String σ) (proj : σs → σ) (P : σs → Prop)
    (hP : ∀ s x, P s → P (fS s x).1)
    (hok : ∀ s x, P s → (fS s x).2 = none →
      fE (proj s) x = Except.ok (proj (fS s x).1))
    (herr : ∀ s x e, P s → (fS s x).2 = some e →
      fE (proj s) x = Except.error e) :
    ∀ (l : List α) (s : σs), P s →
      P (forEachS fS s l).1 ∧
      ((forEachS fS s l).2 = none →
        forEachE fE (proj s) l = Except.ok (proj (forEachS fS s l).1)) ∧
      (∀ e, (forEachS fS s l).2 = some e →
        forEachE fE (proj s) l = Except.error e) := by
  intro l
  induction l with
  | nil =>
    intro s hp
    exact ⟨hp, fun _ => rfl, fun e he => by cases he⟩
  | cons a l ih =>
    intro s hp
    cases hf : fS s a with
    | mk s2 msg =>
      cases msg with
      | none =>
        have hstep : forEachS fS s (a :: l) = forEachS fS s2 l := by
          show (match fS s a with
            | (s2, none) => forEachS fS s2 l
            | (s2, some e) => (s2, some e)) = _
          rw [hf]
        have hp2 : P s2 := by
          have := hP s a hp
          rw [hf] at this
          exact this
        have hfe : fE (proj s) a = Except.ok (proj s2) := by
          have := hok s a hp (by rw [hf])
          rw [hf] at this
          exact this
        obtain ⟨ih1, ih2, ih3⟩ := ih s2 hp2
        refine ⟨by rw [hstep]; exact ih1, ?_, ?_⟩
        · intro hn
          rw [hstep] at hn
          rw [forEachE_cons, hfe]
          dsimp only
          rw [hstep]
          exact ih2 hn
        · intro e he
          rw [hstep] at he
          rw [forEachE_cons, hfe]
          dsimp only
          exact ih3 e he
      | some e0 =>
        have hstep : forEachS fS s (a :: l) = (s2, some e0) := by
          show (match fS s a with
            | (s2, none) => forEachS fS s2 l
            | (s2, some e) => (s2, some e)) = _
          rw [hf]
        have hfe : fE (proj s) a = Except.error e0 :=
          herr s a e0 hp (by rw [hf])
        refine ⟨?_, ?_, ?_⟩
        · rw [hstep]
          have := hP s a hp
          rw [hf] at this
          exact this
        · intro hn
          rw [hstep] at hn
          cases hn
        · intro e he
          rw [hstep] at he
          cases he
          rw [forEachE_cons, hfe]

theorem mergeNodeStepS_eq {NP EP : Type} [DecidableEq NP]
    (nr : Entry NP → Entry NP → Except String (Entry NP))
    (s : MergeState NP EP) (x : Entry NP) :
    mergeNodeStepS nr s x =
      match mergeNodeStep s.g2 nr s.result x with
      | Except.ok r2 => (⟨s.g1, s.g2, r2⟩, none)
      | Except.error e => (s, some e) := by
  unfold mergeNodeStepS mergeNodeStep Graph.addNode
  cases hn : s.g2.getNode x.address with
  | some n2 =>
    dsimp only
    cases hres : nr x n2 with
    | ok resolved =>
      dsimp only
      cases haddp : s.result.addNodeS resolved with
      | mk r2 msg =>
        cases msg with
        | none => rfl
        | some m =>
          dsimp only
          have hr : r2 = s.result := by
            have := Graph.addNodeS_fst_of_err s.result resolved m (by rw [haddp])
            rw [haddp] at this
            exact this
          rw [hr]
    | error e => rfl
  | none =>
    dsimp only
    cases haddp : s.result.addNodeS x with
    | mk r2 msg =>
      cases msg with
      | none => rfl
      | some m =>
        dsimp only
        have hr : r2 = s.result := by
          have := Graph.addNodeS_fst_of_err s.result x m (by rw [haddp])
          rw [haddp] at this
          exact this
        rw [hr]

theorem mergeNode2StepS_eq {NP EP : Type} [DecidableEq NP]
    (s : MergeState NP EP) (x : Entry NP) :
    mergeNode2StepS s x =
      match mergeNode2Step s.result x with
      | Except.ok r2 => (⟨s.g1, s.g2, r2⟩, none)
      | Except.error e => (s, some e) := by
  unfold mergeNode2StepS mergeNode2Step Graph.addNode
  cases hn : s.result.getNode x.address with
  | some n2 => rfl
  | none =>
    dsimp only
    cases haddp : s.result.addNodeS x with
    | mk r2 msg =>
      cases msg with
      | none => rfl
      | some m =>
        dsimp only
        have hr : r2 = s.result := by
          have := Graph.addNodeS_fst_of_err s.result x m (by rw [haddp])
          rw [haddp] at this
          exact this
        rw [hr]

theorem mergeEdgeStepS_eq {NP EP : Type} [DecidableEq NP] [DecidableEq EP]
    (er : Entry (EdgeRest EP) → Entry (EdgeRest EP) →
      Except String (Entry (EdgeRest EP)))
    (s : MergeState NP EP) (x : Entry (EdgeRest EP)) :
    mergeEdgeStepS er s x =
      match mergeEdgeStep s.g2 er s.result x with
      | Except.ok r2 => (⟨s.g1, s.g2, r2⟩, none)
      | Except.error e => (s, some e) := by
  unfold mergeEdgeStepS mergeEdgeStep Graph.addEdge
  cases hn : s.g2.getEdge x.address with
  | some e2 =>
    dsimp only
    cases hres : er x e2 with
    | ok resolved =>
      dsimp only
      cases haddp : s.result.addEdgeS resolved with
      | mk r2 msg =>
        cases msg with
        | none => rfl
        | some m =>
          dsimp only
          have hr : r2 = s.result := by
            have := Graph.addEdgeS_fst_of_err s.result resolved m (by rw [haddp])
            rw [haddp] at this
            exact this
          rw [hr]
    | error e => rfl
  | none =>
    dsimp only
    cases haddp : s.result.addEdgeS x with
    | mk r2 msg =>
      cases msg with
      | none => rfl
      | some m =>
        dsimp only
        have hr : r2 = s.result := by
          have := Graph.addEdgeS_fst_of_err s.result x m (by rw [haddp])
          rw [haddp] at this
          exact this
        rw [hr]

theorem mergeEdge2StepS_eq {NP EP : Type} [DecidableEq NP] [DecidableEq EP]
    (s : MergeState NP EP) (x : Entry (EdgeRest EP)) :
    mergeEdge2StepS s x =
      match mergeEdge2Step s.result x with
      | Except.ok r2 => (⟨s.g1, s.g2, r2⟩, none)
      | Except.error e => (s, some e) := by
  unfold mergeEdge2StepS mergeEdge2Step Graph.addEdge
  cases hn : s.result.getEdge x.address with
  | some e2 => rfl
  | none =>
    dsimp only
    cases haddp : s.result.addEdgeS x with
    | mk r2 msg =>
      cases msg with
      | none => rfl
      | some m =>
        dsimp only
        have hr : r2 = s.result := by
          have := Graph.addEdgeS_fst_of_err s.result x m (by rw [haddp])
          rw [haddp] at this
          exact this
        rw [hr]

/-- C8: merge writes only to the freshly allocated result graph.  At
reference granularity (mergeS), whether the merge returns or throws, the g1
and g2 components of the final state are the unchanged input graphs; and the
functional merge result is exactly the result component of that state, so
the two transcriptions agree. -/
theorem claim_C8 (NP EP : Type) [DecidableEq NP] [DecidableEq EP] :
    ∀ (g1 g2 : Graph NP EP)
      (nr : Entry NP → Entry NP → Except String (Entry NP))
      (er : Entry (EdgeRest EP) → Entry (EdgeRest EP) →
        Except String (Entry (EdgeRest EP))),
      ((Graph.mergeS g1 g2 nr er).1.g1 = g1 ∧
       (Graph.mergeS g1 g2 nr er).1.g2 = g2) ∧
      Graph.merge g1 g2 nr er =
        (match Graph.mergeS g1 g2 nr er with
         | (s, none) => Except.ok s.result
         | (s, some e) => Except.error e) := by
  intro g1 g2 nr er
  have B1 := forEachS_bridge (mergeNodeStepS nr) (mergeNodeStep g2 nr)
    MergeState.result (fun s => s.g1 = g1 ∧ s.g2 = g2)
    (by
      intro s x hp
      rw [mergeNodeStepS_eq]
      cases hm : mergeNodeStep s.g2 nr s.result x with
      | ok r2 => exact ⟨hp.1, hp.2⟩
      | error e => exact hp)
    (by
      intro s x hp h2
      rw [mergeNodeStepS_eq] at h2 ⊢
      cases hm : mergeNodeStep s.g2 nr s.result x with
      | ok r2 =>
        rw [← hp.2]
        exact hm
      | error e =>
        rw [hm] at h2
        simp at h2)
    (by
      intro s x e hp h2
      rw [mergeNodeStepS_eq] at h2
      cases hm : mergeNodeStep s.g2 nr s.result x with
      | ok r2 =>
        rw [hm] at h2
        simp at h2
      | error e2 =>
        rw [hm] at h2
        simp at h2
        cases h2
        rw [← hp.2]
        exact hm)
  have B2 := forEachS_bridge mergeNode2StepS mergeNode2Step
    MergeState.result (fun s => s.g1 = g1 ∧ s.g2 = g2)
    (by
      intro s x hp
      rw [mergeNode2StepS_eq]
      cases hm : mergeNode2Step s.result x with
      | ok r2 => exact ⟨hp.1, hp.2⟩
      | error e => exact hp)
    (by
      intro s x hp h2
      rw [mergeNode2StepS_eq] at h2 ⊢
      cases hm : mergeNode2Step s.result x with
      | ok r2 => rfl
      | error e =>
        rw [hm] at h2
        simp at h2)
    (by
      intro s x e hp h2
      rw [mergeNode2StepS_eq] at h2
      cases hm : mergeNode2Step s.result x with
      | ok r2 =>
        rw [hm] at h2
        simp at h2
      | error e2 =>
        rw [hm] at h2
        simp at h2
        cases h2
        rfl)
  have B3 := forEachS_bridge (mergeEdgeStepS er) (mergeEdgeStep g2 er)
    MergeState.result (fun s => s.g1 = g1 ∧ s.g2 = g2)
    (by
      intro s x hp
      rw [mergeEdgeStepS_eq]
      cases hm : mergeEdgeStep s.g2 er s.result x with
      | ok r2 => exact ⟨hp.1, hp.2⟩
      | error e => exact hp)
    (by
      intro s x hp h2
      rw [mergeEdgeStepS_eq] at h2 ⊢
      cases hm : mergeEdgeStep s.g2 er s.result x with
      | ok r2 =>
        rw [← hp.2]
        exact hm
      | error e =>
        rw [hm] at h2
        simp at h2)
    (by
      intro s x e hp h2
      rw [mergeEdgeStepS_eq] at h2
      cases hm : mergeEdgeStep s.g2 er s.result x with
      | ok r2 =>
        rw [hm] at h2
        simp at h2
      | error e2 =>
        rw [hm] at h2
        simp at h2
        cases h2
        rw [← hp.2]
        exact hm)
  have B4 := forEachS_bridge mergeEdge2StepS mergeEdge2Step
    MergeState.result (fun s => s.g1 = g1 ∧ s.g2 = g2)
    (by
      intro s x hp
      rw [mergeEdge2StepS_eq]
      cases hm : mergeEdge2Step s.result x with
      | ok r2 => exact ⟨hp.1, hp.2⟩
      | error e => exact hp)
    (by
      intro s x hp h2
      rw [mergeEdge2StepS_eq] at h2 ⊢
      cases hm : mergeEdge2Step s.result x with
      | ok r2 => rfl
      | error e =>
        rw [hm] at h2
        simp at h2)
    (by
      intro s x e hp h2
      rw [mergeEdge2StepS_eq] at h2
      cases hm : mergeEdge2Step s.result x with
      | ok r2 =>
        rw [hm] at h2
        simp at h2
      | error e2 =>
        rw [hm] at h2
        simp at h2
        cases h2
        rfl)
  unfold Graph.mergeS Graph.merge
  dsimp only
  obtain ⟨hQ1, hok1, herr1⟩ := B1 g1.getAllNodes ⟨g1, g2, Graph.empty⟩ ⟨rfl, rfl⟩
  cases h1 : forEachS (mergeNodeStepS nr) ⟨g1, g2, Graph.empty⟩ g1.getAllNodes with
  | mk s1 msg1 =>
    rw [h1] at hQ1 hok1 herr1
    cases msg1 with
    | some e =>
      have hfe : forEachE (mergeNodeStep g2 nr) Graph.empty g1.getAllNodes =
          Except.error e := herr1 e rfl
      rw [hfe]
      exact ⟨⟨hQ1.1, hQ1.2⟩, rfl⟩
    | none =>
      have hfe : forEachE (mergeNodeStep g2 nr) Graph.empty g1.getAllNodes =
          Except.ok s1.result := hok1 rfl
      rw [hfe]
      dsimp only
      rw [show s1.g2 = g2 from hQ1.2]
      obtain ⟨hQ2, hok2, herr2⟩ := B2 g2.getAllNodes s1 hQ1
      cases h2 : forEachS mergeNode2StepS s1 g2.getAllNodes with
      | mk s2 msg2 =>
        rw [h2] at hQ2 hok2 herr2
        cases msg2 with
        | some e =>
          have hfe2 : forEachE mergeNode2Step s1.result g2.getAllNodes =
              Except.error e := herr2 e rfl
          rw [hfe2]
          exact ⟨⟨hQ2.1, hQ2.2⟩, rfl⟩
        | none =>
          have hfe2 : forEachE mergeNode2Step s1.result g2.getAllNodes =
              Except.ok s2.result := hok2 rfl
          rw [hfe2]
          dsimp only
          rw [show s2.g1 = g1 from hQ2.1]
          obtain ⟨hQ3, hok3, herr3⟩ := B3 g1.getAllEdges s2 hQ2
          cases h3 : forEachS (mergeEdgeStepS er) s2 g1.getAllEdges with
          | mk s3 msg3 =>
            rw [h3] at hQ3 hok3 herr3
            cases msg3 with
            | some e =>
              have hfe3 : forEachE (mergeEdgeStep g2 er) s2.result g1.getAllEdges =
                  Except.error e := herr3 e rfl
              rw [hfe3]
              exact ⟨⟨hQ3.1, hQ3.2⟩, rfl⟩
            | none =>
              have hfe3 : forEachE (mergeEdgeStep g2 er) s2.result g1.getAllEdges =
                  Except.ok s3.result := hok3 rfl
              rw [hfe3]
              dsimp only
              rw [show s3.g2 = g2 from hQ3.2]
              obtain ⟨hQ4, hok4, herr4⟩ := B4 g2.getAllEdges s3 hQ3
              cases h4 : forEachS mergeEdge2StepS s3 g2.getAllEdges with
              | mk s4 msg4 =>
                rw [h4] at hQ4 hok4 herr4
                cases msg4 with
                | some e =>
                  have hfe4 : forEachE mergeEdge2Step s3.result g2.getAllEdges =
                      Except.error e := herr4 e rfl
                  rw [hfe4]
                  exact ⟨⟨hQ4.1, hQ4.2⟩, rfl⟩
                | none =>
                  have hfe4 : forEachE mergeEdge2Step s3.result g2.getAllEdges =
                      Except.ok s4.result := hok4 rfl
                  rw [hfe4]
                  exact ⟨⟨hQ4.1, hQ4.2⟩, rfl⟩

theorem Graph.getNode_mono {NP EP : Type} [DecidableEq NP]
    {g g2 : Graph NP EP} {n : Entry NP} (hok : g.addNodeS n = (g2, none))
    {a : Address} {u : Entry NP} (hu : g.getNode a = some u) :
    g2.getNode a = some u := by
  rw [Graph.getNode_addNodeS hok]
  by_cases ha : a = n.address
  · rw [if_pos ha]
    rw [ha] at hu
    by_cases hun : u = n
    · rw [hun]
    · rw [Graph.addNodeS_conflict hu hun] at hok
      cases hok
  · rw [if_neg ha]
    exact hu

theorem forEachE_mem_ok {σ α : Type} (f : σ → α → Except String σ)
    (x : α) (Q : σ → Prop)
    (hstep_mem : ∀ t t2, f t x = Except.ok t2 → Q t2)
    (hpres : ∀ t a t2, Q t → f t a = Except.ok t2 → Q t2) :
    ∀ (l : List α) (s s2 : σ), x ∈ l → forEachE f s l = Except.ok s2 → Q s2 := by
  intro l
  induction l with
  | nil =>
    intro s s2 hx h
    simp at hx
  | cons a l ih =>
    intro s s2 hx h
    cases hf : f s a with
    | error e =>
      have : forEachE f s (a :: l) = Except.error e := by
        rw [forEachE_cons, hf]
      rw [this] at h
      cases h
    | ok s3 =>
      have hrest : forEachE f s3 l = Except.ok s2 := by
        have : forEachE f s (a :: l) = forEachE f s3 l := by
          rw [forEachE_cons, hf]
        rw [this] at h
        exact h
      rcases List.mem_cons.mp hx with hxa | hxl
      · have hq3 : Q s3 := hstep_mem s s3 (hxa ▸ hf)
        exact forEachE_preserves Q f hpres l s3 s2 hq3 hrest
      · exact ih s3 s2 hxl hrest

theorem mergeNodeStep_preserves_getNode {NP EP : Type} [DecidableEq NP]
    (g2 : Graph NP EP) (nr : Entry NP → Entry NP → Except String (Entry NP))
    (o : Entry NP) (t : Graph NP EP) (a : Entry NP) (t2 : Graph NP EP)
    (hq : t.getNode o.address = some o)
    (h : mergeNodeStep g2 nr t a = Except.ok t2) :
    t2.getNode o.address = some o := by
  unfold mergeNodeStep at h
  cases hn : g2.getNode a.address with
  | some n2 =>
    rw [hn] at h
    dsimp only at h
    cases hres : nr a n2 with
    | ok resolved =>
      rw [hres] at h
      exact Graph.getNode_mono (Graph.addNode_ok.mp h) hq
    | error e =>
      rw [hres] at h
      cases h
  | none =>
    rw [hn] at h
    dsimp only at h
    exact Graph.getNode_mono (Graph.addNode_ok.mp h) hq

theorem mergeNode2Step_preserves_getNode {NP EP : Type} [DecidableEq NP]
    (o : Entry NP) (t : Graph NP EP) (a : Entry NP) (t2 : Graph NP EP)
    (hq : t.getNode o.address = some o)
    (h : mergeNode2Step t a = Except.ok t2) : t2.getNode o.address = some o := by
  unfold mergeNode2Step at h
  cases hn : t.getNode a.address with
  | some _ =>
    rw [hn] at h
    cases h
    exact hq
  | none =>
    rw [hn] at h
    dsimp only at h
    exact Graph.getNode_mono (Graph.addNode_ok.mp h) hq

theorem mergeEdgeStep_preserves_getNode {NP EP : Type} [DecidableEq NP]
    [DecidableEq EP] (g2 : Graph NP EP)
    (er : Entry (EdgeRest EP) → Entry (EdgeRest EP) →
      Except String (Entry (EdgeRest EP)))
    (o : Entry NP) (t : Graph NP EP) (a : Entry (EdgeRest EP)) (t2 : Graph NP EP)
    (hq : t.getNode o.address = some o)
    (h : mergeEdgeStep g2 er t a = Except.ok t2) :
    t2.getNode o.address = some o := by
  unfold mergeEdgeStep at h
  cases hn : g2.getEdge a.address with
  | some e2 =>
    rw [hn] at h
    dsimp only at h
    cases hres : er a e2 with
    | ok resolved =>
      rw [hres] at h
      have h2 := Graph.addEdge_ok.mp h
      have := Graph.getNode_addEdgeS_fst t resolved o.address
      rw [h2] at this
      rw [← hq]
      exact this
    | error e =>
      rw [hres] at h
      cases h
  | none =>
    rw [hn] at h
    dsimp only at h
    have h2 := Graph.addEdge_ok.mp h
    have := Graph.getNode_addEdgeS_fst t a o.address
    rw [h2] at this
    rw [← hq]
    exact this

theorem mergeEdge2Step_preserves_getNode {NP EP : Type} [DecidableEq NP]
    [DecidableEq EP] (o : Entry NP) (t : Graph NP EP) (a : Entry (EdgeRest EP))
    (t2 : Graph NP EP) (hq : t.getNode o.address = some o)
    (h : mergeEdge2Step t a = Except.ok t2) : t2.getNode o.address = some o := by
  unfold mergeEdge2Step at h
  cases hn : t.getEdge a.address with
  | some _ =>
    rw [hn] at h
    cases h
    exact hq
  | none =>
    rw [hn] at h
    dsimp only at h
    have h2 := Graph.addEdge_ok.mp h
    have := Graph.getNode_addEdgeS_fst t a o.address
    rw [h2] at this
    rw [← hq]
    exact this

/-- C9 counterexample: the resolver is called on the two same-address nodes
at addrA and returns a node at the different address addrB, yet the merge
succeeds and the result holds the resolver output at addrB (plus the g2 node
re-added at addrA in the second loop): no validation rejects the mismatched
address. -/
theorem claim_C9_counterexample :
    graphA.getNode addrA = some nodeA ∧
    graphA2.getNode addrA = some nodeA2 ∧
    mismatchResolver nodeA nodeA2 = Except.ok ⟨addrB, 3⟩ ∧
    addrB ≠ addrA ∧
    Graph.merge graphA graphA2 mismatchResolver keepFirstEdgeResolver =
      Except.ok mismatchMergeResult ∧
    mismatchMergeResult.getNode addrB = some ⟨addrB, 3⟩ ∧
    mismatchMergeResult.getNode addrA = some nodeA2 :=
  ⟨by decide, by decide, rfl, by decide, rfl, by decide, by decide⟩

/-- C9 amended: merge performs no validation of the resolver's output
address.  Whenever the node resolver is called on the two same-address nodes
and returns a value, a successful merge stores that value under the address
the value itself carries and it is still present in the final result, even
when that address differs from the shared input address. -/
theorem claim_C9_amended (NP EP : Type) [DecidableEq NP] [DecidableEq EP] :
    ∀ (g1 g2 : Graph NP EP)
      (nr : Entry NP → Entry NP → Except String (Entry NP))
      (er : Entry (EdgeRest EP) → Entry (EdgeRest EP) →
        Except String (Entry (EdgeRest EP)))
      (a : Address) (n1 n2 o : Entry NP) (r : Graph NP EP),
      g1.Wf → g1.getNode a = some n1 → g2.getNode a = some n2 →
      nr n1 n2 = Except.ok o → Graph.merge g1 g2 nr er = Except.ok r →
      r.getNode o.address = some o := by
  intro g1 g2 nr er a n1 n2 o r hwf hg1 hg2 hres hmerge
  have hmem : n1 ∈ g1.getAllNodes := AddressMap.get_mem_getAll hg1
  have haddr : n1.address = a := AddressMap.get_address hwf.1 hg1
  unfold Graph.merge at hmerge
  cases h1 : forEachE (mergeNodeStep g2 nr) Graph.empty g1.getAllNodes with
  | error e =>
    rw [h1] at hmerge
    cases hmerge
  | ok r1 =>
    rw [h1] at hmerge
    dsimp only at hmerge
    have hq1 : r1.getNode o.address = some o := by
      refine forEachE_mem_ok (mergeNodeStep g2 nr) n1
        (fun t => t.getNode o.address = some o) ?_ ?_
        g1.getAllNodes Graph.empty r1 hmem h1
      · intro t t2 hstep
        unfold mergeNodeStep at hstep
        rw [haddr, hg2] at hstep
        dsimp only at hstep
        rw [hres] at hstep
        have h2 := Graph.addNode_ok.mp hstep
        rw [Graph.getNode_addNodeS h2, if_pos rfl]
      · intro t x t2 hq hstep
        exact mergeNodeStep_preserves_getNode g2 nr o t x t2 hq hstep
    cases h2 : forEachE mergeNode2Step r1 g2.getAllNodes with
    | error e =>
      rw [h2] at hmerge
      cases hmerge
    | ok r2 =>
      rw [h2] at hmerge
      dsimp only at hmerge
      have hq2 : r2.getNode o.address = some o :=
        forEachE_preserves (fun t => t.getNode o.address = some o) _
          (fun t x t2 hq hstep =>
            mergeNode2Step_preserves_getNode o t x t2 hq hstep)
          g2.getAllNodes r1 r2 hq1 h2
      cases h3 : forEachE (mergeEdgeStep g2 er) r2 g1.getAllEdges with
      | error e =>
        rw [h3] at hmerge
        cases hmerge
      | ok r3 =>
        rw [h3] at hmerge
        dsimp only at hmerge
        have hq3 : r3.getNode o.address = some o :=
          forEachE_preserves (fun t => t.getNode o.address = some o) _
            (fun t x t2 hq hstep =>
              mergeEdgeStep_preserves_getNode g2 er o t x t2 hq hstep)
            g1.getAllEdges r2 r3 hq2 h3
        exact forEachE_preserves (fun t => t.getNode o.address = some o) _
          (fun t x t2 hq hstep =>
            mergeEdge2Step_preserves_getNode o t x t2 hq hstep)
          g2.getAllEdges r3 r hq3 hmerge

/-- C9 amended witness: the mismatched resolver output at addrB is present
in the concrete merge result. -/
theorem claim_C9_amended_witness :
    Graph.Wf graphA ∧ graphA.getNode addrA = some nodeA ∧
    graphA2.getNode addrA = some nodeA2 ∧
    mismatchResolver nodeA nodeA2 = Except.ok ⟨addrB, 3⟩ ∧
    Graph.merge graphA graphA2 mismatchResolver keepFirstEdgeResolver =
      Except.ok mismatchMergeResult ∧
    mismatchMergeResult.getNode (Entry.address ⟨addrB, 3⟩) = some ⟨addrB, 3⟩ :=
  ⟨by decide, by decide, by decide, rfl, rfl,
   claim_C9_amended Nat Nat graphA graphA2 mismatchResolver
     keepFirstEdgeResolver addrA nodeA nodeA2 ⟨addrB, 3⟩ mismatchMergeResult
     (by decide) (by decide) (by decide) rfl rfl⟩

theorem AddressMap.addresses_nodup {S : Type} {m : AddressMap S} (hwf : m.Wf) :
    (m.getAll.map Entry.address).Nodup := by
  have hkeys : m.keys = (m.getAll.map Entry.address).map serializeAddress := by
    unfold AddressMap.keys AddressMap.getAll jsKeys
    rw [List.map_map, List.map_map]
    apply List.map_congr_left
    intro p hp
    exact hwf.2 p hp
  have := hwf.1
  rw [hkeys] at this
  exact List.Nodup.of_map serializeAddress this

theorem AddressMap.countP_getAll {S : Type} [DecidableEq S] {m : AddressMap S}
    {a : Address} (hwf : m.Wf) (h : (m.get a).isSome = true) :
    m.getAll.countP (fun v => v.address == a) = 1 := by
  cases hv : m.get a with
  | none =>
    rw [hv] at h
    simp at h
  | some u =>
    have hmem : u ∈ m.getAll := AddressMap.get_mem_getAll hv
    have haddr : u.address = a := AddressMap.get_address hwf hv
    have hmem2 : a ∈ m.getAll.map Entry.address := by
      rw [← haddr]
      exact List.mem_map_of_mem Entry.address hmem
    have hcount : (m.getAll.map Entry.address).count a = 1 :=
      List.count_eq_one_of_mem (AddressMap.addresses_nodup hwf) hmem2
    calc m.getAll.countP (fun v => v.address == a)
        = (m.getAll.map Entry.address).countP (fun x => x == a) := by
          rw [List.countP_map]
          rfl
      _ = (m.getAll.map Entry.address).count a := rfl
      _ = 1 := hcount

theorem consPhase1_ok {NP EP : Type} [DecidableEq NP] [DecidableEq EP]
    (g2 : Graph NP EP) (nr : Entry NP → Entry NP → Except String (Entry NP)) :
    ∀ (l : List (Entry NP)) (r : Graph NP EP),
      (∀ n ∈ l, ∀ n2, g2.getNode n.address = some n2 → nr n n2 = Except.ok n) →
      (∀ n ∈ l, r.getNode n.address = none) →
      (l.map Entry.address).Nodup →
      ∃ r2, forEachE (mergeNodeStep g2 nr) r l = Except.ok r2 ∧
        (∀ n ∈ l, r2.getNode n.address = some n) ∧
        (∀ a, (∀ n ∈ l, n.address ≠ a) → r2.getNode a = r.getNode a) ∧
        r2.edges = r.edges := by
  intro l
  induction l with
  | nil =>
    intro r hres habs hdist
    exact ⟨r, rfl, by simp, fun a _ => rfl, rfl⟩
  | cons n l ih =>
    intro r hres habs hdist
    have habsn : r.getNode n.address = none := habs n (List.mem_cons_self n l)
    have hstep : mergeNodeStep g2 nr r n =
        Except.ok (r.addNodeS n).1 := by
      unfold mergeNodeStep
      cases hg : g2.getNode n.address with
      | some n2 =>
        dsimp only
        rw [hres n (List.mem_cons_self n l) n2 hg]
        rw [Graph.addNode_ok]
        rw [Graph.addNodeS_insert habsn]
      | none =>
        dsimp only
        rw [Graph.addNode_ok]
        rw [Graph.addNodeS_insert habsn]
    have hok1 : r.addNodeS n = ((r.addNodeS n).1, none) := by
      rw [Graph.addNodeS_insert habsn]
    have hchar := Graph.getNode_addNodeS hok1
    rw [List.map_cons, List.nodup_cons] at hdist
    have habs2 : ∀ m ∈ l, (r.addNodeS n).1.getNode m.address = none := by
      intro m hm
      rw [hchar m.address]
      rw [if_neg (fun he => hdist.1
        (by rw [← he]; exact List.mem_map_of_mem Entry.address hm))]
      exact habs m (List.mem_cons_of_mem n hm)
    obtain ⟨r2, hfold, hall, hframe, hedges⟩ := ih (r.addNodeS n).1
      (fun m hm n2 hg => hres m (List.mem_cons_of_mem n hm) n2 hg)
      habs2 hdist.2
    refine ⟨r2, ?_, ?_, ?_, ?_⟩
    · rw [forEachE_cons, hstep]
      exact hfold
    · intro m hm
      rcases List.mem_cons.mp hm with hm | hm
      · rw [hm]
        rw [hframe n.address (fun m2 hm2 he =>
          hdist.1 (by rw [← he]; exact List.mem_map_of_mem Entry.address hm2))]
        rw [hchar n.address, if_pos rfl]
      · exact hall m hm
    · intro a ha
      rw [hframe a (fun m hm => ha m (List.mem_cons_of_mem n hm)),
        hchar a, if_neg (fun he => ha n (List.mem_cons_self n l) he.symm)]
    · rw [hedges]
      rw [Graph.edges_addNodeS]

theorem phase2_ok {NP EP : Type} [DecidableEq NP] [DecidableEq EP] :
    ∀ (l : List (Entry NP)) (r : Graph NP EP),
      ∃ r2, forEachE mergeNode2Step r l = Except.ok r2 ∧
        (∀ a u, r.getNode a = some u → r2.getNode a = some u) ∧
        (∀ n ∈ l, (r2.getNode n.address).isSome = true) ∧
        r2.edges = r.edges := by
  intro l
  induction l with
  | nil =>
    intro r
    exact ⟨r, rfl, fun a u h => h, by simp, rfl⟩
  | cons n l ih =>
    intro r
    cases hg : r.getNode n.address with
    | some u =>
      have hstep : mergeNode2Step r n = Except.ok r := by
        unfold mergeNode2Step
        rw [hg]
      obtain ⟨r2, hfold, hpers, hall, hedges⟩ := ih r
      refine ⟨r2, ?_, hpers, ?_, hedges⟩
      · rw [forEachE_cons, hstep]
        exact hfold
      · intro m hm
        rcases List.mem_cons.mp hm with hm | hm
        · rw [hm]
          rw [hpers n.address u hg]
          rfl
        · exact hall m hm
    | none =>
      have hok1 : r.addNodeS n = ((r.addNodeS n).1, none) := by
        rw [Graph.addNodeS_insert hg]
      have hstep : mergeNode2Step r n = Except.ok (r.addNodeS n).1 := by
        unfold mergeNode2Step
        rw [hg]
        dsimp only
        rw [Graph.addNode_ok]
        exact hok1
      have hchar := Graph.getNode_addNodeS hok1
      obtain ⟨r2, hfold, hpers, hall, hedges⟩ := ih (r.addNodeS n).1
      refine ⟨r2, ?_, ?_, ?_, ?_⟩
      · rw [forEachE_cons, hstep]
        exact hfold
      · intro a u hu
        apply hpers
        exact Graph.getNode_mono hok1 hu
      · intro m hm
        rcases List.mem_cons.mp hm with hm | hm
        · rw [hm]
          have : (r.addNodeS n).1.getNode n.address = some n := by
            rw [hchar n.address, if_pos rfl]
          rw [hpers n.address n this]
          rfl
        · exact hall m hm
      · rw [hedges]
        rw [Graph.edges_addNodeS]

theorem consPhase3_ok {NP EP : Type} [DecidableEq NP] [DecidableEq EP]
    (g2 : Graph NP EP)
    (er : Entry (EdgeRest EP) → Entry (EdgeRest EP) →
      Except String (Entry (EdgeRest EP))) :
    ∀ (l : List (Entry (EdgeRest EP))) (r : Graph NP EP),
      (∀ e ∈ l, ∀ e2, g2.getEdge e.address = some e2 → er e e2 = Except.ok e) →
      (∀ e ∈ l, r.getEdge e.address = none) →
      (l.map Entry.address).Nodup →
      (∀ e ∈ l, (r.getNode e.src).isSome = true ∧ (r.getNode e.dst).isSome = true) →
      ∃ r2, forEachE (mergeEdgeStep g2 er) r l = Except.ok r2 ∧
        (∀ e ∈ l, r2.getEdge e.address = some e) ∧
        (∀ a, (∀ e ∈ l, e.address ≠ a) → r2.getEdge a = r.getEdge a) ∧
        r2.nodes = r.nodes := by
  intro l
  induction l with
  | nil =>
    intro r hres habs hdist hend
    exact ⟨r, rfl, by simp, fun a _ => rfl, rfl⟩
  | cons e l ih =>
    intro r hres habs hdist hend
    have habse : r.getEdge e.address = none := habs e (List.mem_cons_self e l)
    obtain ⟨hends, hendd⟩ := hend e (List.mem_cons_self e l)
    obtain ⟨ns, hns⟩ := Option.isSome_iff_exists.mp hends
    obtain ⟨nd, hnd⟩ := Option.isSome_iff_exists.mp hendd
    have hok1 : r.addEdgeS e = ((r.addEdgeS e).1, none) := by
      rw [Graph.addEdgeS_insert habse hns hnd]
    have hstep : mergeEdgeStep g2 er r e = Except.ok (r.addEdgeS e).1 := by
      unfold mergeEdgeStep
      cases hg : g2.getEdge e.address with
      | some e2 =>
        dsimp only
        rw [hres e (List.mem_cons_self e l) e2 hg]
        rw [Graph.addEdge_ok]
        exact hok1
      | none =>
        dsimp only
        rw [Graph.addEdge_ok]
        exact hok1
    have hchar := Graph.getEdge_addEdgeS hok1
    rw [List.map_cons, List.nodup_cons] at hdist
    have habs2 : ∀ m ∈ l, (r.addEdgeS e).1.getEdge m.address = none := by
      intro m hm
      rw [hchar m.address]
      rw [if_neg (fun he => hdist.1
        (by rw [← he]; exact List.mem_map_of_mem Entry.address hm))]
      exact habs m (List.mem_cons_of_mem e hm)
    have hnodes1 : (r.addEdgeS e).1.nodes = r.nodes := Graph.nodes_addEdgeS r e
    have hend2 : ∀ m ∈ l, ((r.addEdgeS e).1.getNode m.src).isSome = true ∧
        ((r.addEdgeS e).1.getNode m.dst).isSome = true := by
      intro m hm
      have h1 := Graph.getNode_addEdgeS_fst r e m.src
      have h2 := Graph.getNode_addEdgeS_fst r e m.dst
      rw [h1, h2]
      exact hend m (List.mem_cons_of_mem e hm)
    obtain ⟨r2, hfold, hall, hframe, hnodes⟩ := ih (r.addEdgeS e).1
      (fun m hm e2 hg => hres m (List.mem_cons_of_mem e hm) e2 hg)
      habs2 hdist.2 hend2
    refine ⟨r2, ?_, ?_, ?_, ?_⟩
    · rw [forEachE_cons, hstep]
      exact hfold
    · intro m hm
      rcases List.mem_cons.mp hm with hm | hm
      · rw [hm]
        rw [hframe e.address (fun m2 hm2 he =>
          hdist.1 (by rw [← he]; exact List.mem_map_of_mem Entry.address hm2))]
        rw [hchar e.address, if_pos rfl]
      · exact hall m hm
    · intro a ha
      rw [hframe a (fun m hm => ha m (List.mem_cons_of_mem e hm)),
        hchar a, if_neg (fun he => ha e (List.mem_cons_self e l) he.symm)]
    · rw [hnodes, hnodes1]

theorem phase4_ok {NP EP : Type} [DecidableEq NP] [DecidableEq EP] :
    ∀ (l : List (Entry (EdgeRest EP))) (r : Graph NP EP),
      (∀ e ∈ l, (r.getNode e.src).isSome = true ∧ (r.getNode e.dst).isSome = true) →
      ∃ r2, forEachE mergeEdge2Step r l = Except.ok r2 ∧
        (∀ a u, r.getEdge a = some u → r2.getEdge a = some u) ∧
        (∀ e ∈ l, (r2.getEdge e.address).isSome = true) ∧
        r2.nodes = r.nodes := by
  intro l
  induction l with
  | nil =>
    intro r hend
    exact ⟨r, rfl, fun a u h => h, by simp, rfl⟩
  | cons e l ih =>
    intro r hend
    cases hg : r.getEdge e.address with
    | some u =>
      have hstep : mergeEdge2Step r e = Except.ok r := by
        unfold mergeEdge2Step
        rw [hg]
      obtain ⟨r2, hfold, hpers, hall, hnodes⟩ := ih r
        (fun m hm => hend m (List.mem_cons_of_mem e hm))
      refine ⟨r2, ?_, hpers, ?_, hnodes⟩
      · rw [forEachE_cons, hstep]
        exact hfold
      · intro m hm
        rcases List.mem_cons.mp hm with hm | hm
        · rw [hm]
          rw [hpers e.address u hg]
          rfl
        · exact hall m hm
    | none =>
      obtain ⟨hends, hendd⟩ := hend e (List.mem_cons_self e l)
      obtain ⟨ns, hns⟩ := Option.isSome_iff_exists.mp hends
      obtain ⟨nd, hnd⟩ := Option.isSome_iff_exists.mp hendd
      have hok1 : r.addEdgeS e = ((r.addEdgeS e).1, none) := by
        rw [Graph.addEdgeS_insert hg hns hnd]
      have hstep : mergeEdge2Step r e = Except.ok (r.addEdgeS e).1 := by
        unfold mergeEdge2Step
        rw [hg]
        dsimp only
        rw [Graph.addEdge_ok]
        exact hok1
      have hchar := Graph.getEdge_addEdgeS hok1
      have hend2 : ∀ m ∈ l, ((r.addEdgeS e).1.getNode m.src).isSome = true ∧
          ((r.addEdgeS e).1.getNode m.dst).isSome = true := by
        intro m hm
        rw [Graph.getNode_addEdgeS_fst r e m.src, Graph.getNode_addEdgeS_fst r e m.dst]
        exact hend m (List.mem_cons_of_mem e hm)
      obtain ⟨r2, hfold, hpers, hall, hnodes⟩ := ih (r.addEdgeS e).1 hend2
      refine ⟨r2, ?_, ?_, ?_, ?_⟩
      · rw [forEachE_cons, hstep]
        exact hfold
      · intro a u hu
        apply hpers
        rw [hchar a]
        by_cases ha : a = e.address
        · rw [ha] at hu
          rw [hu] at hg
          cases hg
        · rw [if_neg ha]
          exact hu
      · intro m hm
        rcases List.mem_cons.mp hm with hm | hm
        · rw [hm]
          have : (r.addEdgeS e).1.getEdge e.address = some e := by
            rw [hchar e.address, if_pos rfl]
          rw [hpers e.address e this]
          rfl
        · exact hall m hm
      · rw [hnodes]
        exact Graph.nodes_addEdgeS r e

theorem consPhase1_error {NP EP : Type} [DecidableEq NP] [DecidableEq EP]
    (g2 : Graph NP EP) :
    ∀ (l : List (Entry NP)) (r : Graph NP EP),
      (∀ n ∈ l, r.getNode n.address = none) →
      (l.map Entry.address).Nodup →
      (∃ n ∈ l, ∃ n2, g2.getNode n.address = some n2 ∧ n2 ≠ n) →
      ∃ msg, forEachE (mergeNodeStep g2
          (fun u v => conservativeResolver "nodes" u v)) r l = Except.error msg ∧
        ∃ n ∈ l, ∃ n2, g2.getNode n.address = some n2 ∧ n2 ≠ n ∧
          msg = "distinct nodes with address " ++ serializeAddress n.address := by
  intro l
  induction l with
  | nil =>
    intro r habs hdist hbad
    simp at hbad
  | cons n l ih =>
    intro r habs hdist hbad
    by_cases hc : ∃ n2, g2.getNode n.address = some n2 ∧ n2 ≠ n
    · obtain ⟨n2, hg, hne⟩ := hc
      have hstep : mergeNodeStep g2 (fun u v => conservativeResolver "nodes" u v) r n =
          Except.error ("distinct nodes with address " ++ serializeAddress n.address) := by
        unfold mergeNodeStep
        rw [hg]
        dsimp only
        unfold conservativeResolver
        rw [if_neg (fun he => hne he.symm)]
        rfl
      refine ⟨_, ?_, n, List.mem_cons_self n l, n2, hg, hne, rfl⟩
      rw [forEachE_cons, hstep]
    · have hstep : mergeNodeStep g2 (fun u v => conservativeResolver "nodes" u v) r n =
          Except.ok (r.addNodeS n).1 := by
        unfold mergeNodeStep
        cases hg : g2.getNode n.address with
        | some n2 =>
          have hn2 : n2 = n := by
            by_contra hne
            exact hc ⟨n2, hg, hne⟩
          dsimp only
          unfold conservativeResolver
          rw [if_pos hn2.symm]
          rw [Graph.addNode_ok]
          rw [Graph.addNodeS_insert (habs n (List.mem_cons_self n l))]
        | none =>
          dsimp only
          rw [Graph.addNode_ok]
          rw [Graph.addNodeS_insert (habs n (List.mem_cons_self n l))]
      have hok1 : r.addNodeS n = ((r.addNodeS n).1, none) := by
        rw [Graph.addNodeS_insert (habs n (List.mem_cons_self n l))]
      have hchar := Graph.getNode_addNodeS hok1
      rw [List.map_cons, List.nodup_cons] at hdist
      have habs2 : ∀ m ∈ l, (r.addNodeS n).1.getNode m.address = none := by
        intro m hm
        rw [hchar m.address]
        rw [if_neg (fun he => hdist.1
          (by rw [← he]; exact List.mem_map_of_mem Entry.address hm))]
        exact habs m (List.mem_cons_of_mem n hm)
      have hbad2 : ∃ m ∈ l, ∃ n2, g2.getNode m.address = some n2 ∧ n2 ≠ m := by
        obtain ⟨m, hm, n2, hg, hne⟩ := hbad
        rcases List.mem_cons.mp hm with hm | hm
        · exact absurd ⟨n2, hm ▸ hg, hm ▸ hne⟩ hc
        · exact ⟨m, hm, n2, hg, hne⟩
      obtain ⟨msg, hfold, m, hm, n2, hg, hne, hmsg⟩ :=
        ih (r.addNodeS n).1 habs2 hdist.2 hbad2
      refine ⟨msg, ?_, m, List.mem_cons_of_mem n hm, n2, hg, hne, hmsg⟩
      rw [forEachE_cons, hstep]
      exact hfold

theorem consPhase3_error {NP EP : Type} [DecidableEq NP] [DecidableEq EP]
    (g2 : Graph NP EP) :
    ∀ (l : List (Entry (EdgeRest EP))) (r : Graph NP EP),
      (∀ e ∈ l, r.getEdge e.address = none) →
      (l.map Entry.address).Nodup →
      (∀ e ∈ l, (r.getNode e.src).isSome = true ∧ (r.getNode e.dst).isSome = true) →
      (∃ e ∈ l, ∃ e2, g2.getEdge e.address = some e2 ∧ e2 ≠ e) →
      ∃ msg, forEachE (mergeEdgeStep g2
          (fun e f => conservativeResolver "edges" e f)) r l = Except.error msg ∧
        ∃ e ∈ l, ∃ e2, g2.getEdge e.address = some e2 ∧ e2 ≠ e ∧
          msg = "distinct edges with address " ++ serializeAddress e.address := by
  intro l
  induction l with
  | nil =>
    intro r habs hdist hend hbad
    simp at hbad
  | cons e l ih =>
    intro r habs hdist hend hbad
    by_cases hc : ∃ e2, g2.getEdge e.address = some e2 ∧ e2 ≠ e
    · obtain ⟨e2, hg, hne⟩ := hc
      have hstep : mergeEdgeStep g2 (fun e f => conservativeResolver "edges" e f) r e =
          Except.error ("distinct edges with address " ++ serializeAddress e.address) := by
        unfold mergeEdgeStep
        rw [hg]
        dsimp only
        unfold conservativeResolver
        rw [if_neg (fun he => hne he.symm)]
        rfl
      refine ⟨_, ?_, e, List.mem_cons_self e l, e2, hg, hne, rfl⟩
      rw [forEachE_cons, hstep]
    · obtain ⟨hends, hendd⟩ := hend e (List.mem_cons_self e l)
      obtain ⟨ns, hns⟩ := Option.isSome_iff_exists.mp hends
      obtain ⟨nd, hnd⟩ := Option.isSome_iff_exists.mp hendd
      have hok1 : r.addEdgeS e = ((r.addEdgeS e).1, none) := by
        rw [Graph.addEdgeS_insert (habs e (List.mem_cons_self e l)) hns hnd]
      have hstep : mergeEdgeStep g2 (fun e f => conservativeResolver "edges" e f) r e =
          Except.ok (r.addEdgeS e).1 := by
        unfold mergeEdgeStep
        cases hg : g2.getEdge e.address with
        | some e2 =>
          have he2 : e2 = e := by
            by_contra hne
            exact hc ⟨e2, hg, hne⟩
          dsimp only
          unfold conservativeResolver
          rw [if_pos he2.symm]
          rw [Graph.addEdge_ok]
          exact hok1
        | none =>
          dsimp only
          rw [Graph.addEdge_ok]
          exact hok1
      have hchar := Graph.getEdge_addEdgeS hok1
      rw [List.map_cons, List.nodup_cons] at hdist
      have habs2 : ∀ m ∈ l, (r.addEdgeS e).1.getEdge m.address = none := by
        intro m hm
        rw [hchar m.address]
        rw [if_neg (fun he => hdist.1
          (by rw [← he]; exact List.mem_map_of_mem Entry.address hm))]
        exact habs m (List.mem_cons_of_mem e hm)
      have hend2 : ∀ m ∈ l, ((r.addEdgeS e).1.getNode m.src).isSome = true ∧
          ((r.addEdgeS e).1.getNode m.dst).isSome = true := by
        intro m hm
        rw [Graph.getNode_addEdgeS_fst r e m.src, Graph.getNode_addEdgeS_fst r e m.dst]
        exact hend m (List.mem_cons_of_mem e hm)
      have hbad2 : ∃ m ∈ l, ∃ e2, g2.getEdge m.address = some e2 ∧ e2 ≠ m := by
        obtain ⟨m, hm, e2, hg, hne⟩ := hbad
        rcases List.mem_cons.mp hm with hm | hm
        · exact absurd ⟨e2, hm ▸ hg, hm ▸ hne⟩ hc
        · exact ⟨m, hm, e2, hg, hne⟩
      obtain ⟨msg, hfold, m, hm, e2, hg, hne, hmsg⟩ :=
        ih (r.addEdgeS e).1 habs2 hdist.2 hend2 hbad2
      refine ⟨msg, ?_, m, List.mem_cons_of_mem e hm, e2, hg, hne, hmsg⟩
      rw [forEachE_cons, hstep]
      exact hfold

/-- C7: conservative merge of two well-formed graphs.  When every address
shared by the two graphs (checked from g1's side) carries deep-equal content,
mergeConservative succeeds and the result holds exactly one entry per shared
node address and per shared edge address; when some shared node or edge
address carries differing content, mergeConservative fails with the
distinct-values message naming an offending address and its kind. -/
theorem claim_C7 (NP EP : Type) [DecidableEq NP] [DecidableEq EP] :
    (∀ (g1 g2 : Graph NP EP), g1.Wf → g2.Wf →
      (∀ n1 ∈ g1.getAllNodes, (g2.getNode n1.address).getD n1 = n1) →
      (∀ e1 ∈ g1.getAllEdges, (g2.getEdge e1.address).getD e1 = e1) →
      ∃ g, Graph.mergeConservative g1 g2 = Except.ok g ∧
        (∀ n1 ∈ g1.getAllNodes, (g2.getNode n1.address).isSome = true →
          g.getAllNodes.countP (fun v => v.address == n1.address) = 1) ∧
        (∀ e1 ∈ g1.getAllEdges, (g2.getEdge e1.address).isSome = true →
          g.getAllEdges.countP (fun v => v.address == e1.address) = 1)) ∧
    (∀ (g1 g2 : Graph NP EP), g1.Wf → g2.Wf →
      ((∃ n1 ∈ g1.getAllNodes, (g2.getNode n1.address).getD n1 ≠ n1) ∨
       (∃ e1 ∈ g1.getAllEdges, (g2.getEdge e1.address).getD e1 ≠ e1)) →
      ∃ msg, Graph.mergeConservative g1 g2 = Except.error msg ∧
        ((∃ a n1 n2, g1.getNode a = some n1 ∧ g2.getNode a = some n2 ∧ n1 ≠ n2 ∧
            msg = "distinct nodes with address " ++ serializeAddress a) ∨
         (∃ a e1 e2, g1.getEdge a = some e1 ∧ g2.getEdge a = some e2 ∧ e1 ≠ e2 ∧
            msg = "distinct edges with address " ++ serializeAddress a))) := by
  constructor
  · intro g1 g2 hwf1 hwf2 hnagree heagree
    have hnres : ∀ n ∈ g1.getAllNodes, ∀ n2, g2.getNode n.address = some n2 →
        (fun u v => conservativeResolver "nodes" u v) n n2 = Except.ok n := by
      intro n hn n2 hg
      have hx := hnagree n hn
      rw [hg] at hx
      simp at hx
      dsimp only
      unfold conservativeResolver
      rw [if_pos hx.symm]
    have heres : ∀ e ∈ g1.getAllEdges, ∀ e2, g2.getEdge e.address = some e2 →
        (fun e f => conservativeResolver "edges" e f) e e2 = Except.ok e := by
      intro e he e2 hg
      have hx := heagree e he
      rw [hg] at hx
      simp at hx
      dsimp only
      unfold conservativeResolver
      rw [if_pos hx.symm]
    obtain ⟨r1, hf1, hall1, hframe1, hedges1⟩ := consPhase1_ok g2
      (fun u v => conservativeResolver "nodes" u v) g1.getAllNodes Graph.empty
      hnres (fun n _ => rfl) (AddressMap.addresses_nodup hwf1.1)
    obtain ⟨r2, hf2, hpers2, hall2, hedges2⟩ := phase2_ok g2.getAllNodes r1
    have habs3 : ∀ e ∈ g1.getAllEdges, r2.getEdge e.address = none := by
      intro e he
      show r2.edges.get e.address = none
      rw [hedges2, hedges1]
      rfl
    have hend3 : ∀ e ∈ g1.getAllEdges,
        (r2.getNode e.src).isSome = true ∧ (r2.getNode e.dst).isSome = true := by
      intro e he
      obtain ⟨hs1, hd1, -, -⟩ := hwf1.2.2.2.2.2.2.1 e he
      obtain ⟨ns, hns⟩ := Option.isSome_iff_exists.mp hs1
      obtain ⟨nd, hnd⟩ := Option.isSome_iff_exists.mp hd1
      have hnsmem : ns ∈ g1.getAllNodes := AddressMap.get_mem_getAll hns
      have hndmem : nd ∈ g1.getAllNodes := AddressMap.get_mem_getAll hnd
      have hnsa : ns.address = e.src := AddressMap.get_address hwf1.1 hns
      have hnda : nd.address = e.dst := AddressMap.get_address hwf1.1 hnd
      constructor
      · have h1 := hall1 ns hnsmem
        rw [hnsa] at h1
        rw [hpers2 e.src ns h1]
        rfl
      · have h1 := hall1 nd hndmem
        rw [hnda] at h1
        rw [hpers2 e.dst nd h1]
        rfl
    obtain ⟨r3, hf3, hall3, hframe3, hnodes3⟩ := consPhase3_ok g2
      (fun e f => conservativeResolver "edges" e f) g1.getAllEdges r2
      heres habs3 (AddressMap.addresses_nodup hwf1.2.1) hend3
    have hend4 : ∀ e ∈ g2.getAllEdges,
        (r3.getNode e.src).isSome = true ∧ (r3.getNode e.dst).isSome = true := by
      intro e he
      obtain ⟨hs1, hd1, -, -⟩ := hwf2.2.2.2.2.2.2.1 e he
      obtain ⟨ms, hms⟩ := Option.isSome_iff_exists.mp hs1
      obtain ⟨md, hmd⟩ := Option.isSome_iff_exists.mp hd1
      have hmsmem : ms ∈ g2.getAllNodes := AddressMap.get_mem_getAll hms
      have hmdmem : md ∈ g2.getAllNodes := AddressMap.get_mem_getAll hmd
      have hmsa : ms.address = e.src := AddressMap.get_address hwf2.1 hms
      have hmda : md.address = e.dst := AddressMap.get_address hwf2.1 hmd
      have h1 := hall2 ms hmsmem
      have h2 := hall2 md hmdmem
      rw [hmsa] at h1
      rw [hmda] at h2
      constructor
      · show (r3.nodes.get e.src).isSome = true
        rw [hnodes3]
        exact h1
      · show (r3.nodes.get e.dst).isSome = true
        rw [hnodes3]
        exact h2
    obtain ⟨r4, hf4, hpers4, hall4, hnodes4⟩ := phase4_ok g2.getAllEdges r3 hend4
    have hmerge : Graph.mergeConservative g1 g2 = Except.ok r4 := by
      unfold Graph.mergeConservative Graph.merge
      rw [hf1]
      dsimp only
      rw [hf2]
      dsimp only
      rw [hf3]
      dsimp only
      exact hf4
    have hwfr : r4.Wf := Graph.wf_mergeConservative g1 g2 r4 hmerge
    refine ⟨r4, hmerge, ?_, ?_⟩
    · intro n1 hn1 hshared
      have h1 := hall1 n1 hn1
      have h2 := hpers2 n1.address n1 h1
      have h3 : r4.nodes.get n1.address = some n1 := by
        show r4.nodes.get n1.address = some n1
        rw [hnodes4, hnodes3]
        exact h2
      exact AddressMap.countP_getAll hwfr.1 (by rw [h3]; rfl)
    · intro e1 he1 hshared
      have h1 := hall3 e1 he1
      have h2 := hpers4 e1.address e1 h1
      have h3 : r4.edges.get e1.address = some e1 := h2
      exact AddressMap.countP_getAll hwfr.2.1 (by rw [h3]; rfl)
  · intro g1 g2 hwf1 hwf2 hdiff
    by_cases hnodes : ∃ n1 ∈ g1.getAllNodes, ∃ n2,
        g2.getNode n1.address = some n2 ∧ n2 ≠ n1
    · obtain ⟨msg, hfold, n, hn, n2, hg, hne, hmsg⟩ :=
        consPhase1_error g2 g1.getAllNodes Graph.empty (fun n _ => rfl)
          (AddressMap.addresses_nodup hwf1.1) hnodes
      refine ⟨msg, ?_, Or.inl ⟨n.address, n, n2,
        AddressMap.getAll_get hwf1.1 hn, hg, Ne.symm hne, hmsg⟩⟩
      unfold Graph.mergeConservative Graph.merge
      rw [hfold]
    · have hnagree : ∀ n ∈ g1.getAllNodes, ∀ n2,
          g2.getNode n.address = some n2 → n2 = n := by
        intro n hn n2 hg
        by_contra hne
        exact hnodes ⟨n, hn, n2, hg, hne⟩
      have hedgesbad : ∃ e1 ∈ g1.getAllEdges, ∃ e2,
          g2.getEdge e1.address = some e2 ∧ e2 ≠ e1 := by
        rcases hdiff with h | h
        · exfalso
          obtain ⟨n1, hn1, hne⟩ := h
          cases hg : g2.getNode n1.address with
          | none =>
            rw [hg] at hne
            simp at hne
          | some n2 =>
            rw [hg] at hne
            simp at hne
            exact hne (hnagree n1 hn1 n2 hg)
        · obtain ⟨e1, he1, hne⟩ := h
          cases hg : g2.getEdge e1.address with
          | none =>
            rw [hg] at hne
            simp at hne
          | some e2 =>
            rw [hg] at hne
            simp at hne
            exact ⟨e1, he1, e2, hg, hne⟩
      have hnres : ∀ n ∈ g1.getAllNodes, ∀ n2, g2.getNode n.address = some n2 →
          (fun u v => conservativeResolver "nodes" u v) n n2 = Except.ok n := by
        intro n hn n2 hg
        have hx := hnagree n hn n2 hg
        dsimp only
        unfold conservativeResolver
        rw [if_pos hx.symm]
      obtain ⟨r1, hf1, hall1, hframe1, hedges1⟩ := consPhase1_ok g2
        (fun u v => conservativeResolver "nodes" u v) g1.getAllNodes Graph.empty
        hnres (fun n _ => rfl) (AddressMap.addresses_nodup hwf1.1)
      obtain ⟨r2, hf2, hpers2, hall2, hedges2⟩ := phase2_ok g2.getAllNodes r1
      have habs3 : ∀ e ∈ g1.getAllEdges, r2.getEdge e.address = none := by
        intro e he
        show r2.edges.get e.address = none
        rw [hedges2, hedges1]
        rfl
      have hend3 : ∀ e ∈ g1.getAllEdges,
          (r2.getNode e.src).isSome = true ∧ (r2.getNode e.dst).isSome = true := by
        intro e he
        obtain ⟨hs1, hd1, -, -⟩ := hwf1.2.2.2.2.2.2.1 e he
        obtain ⟨ns, hns⟩ := Option.isSome_iff_exists.mp hs1
        obtain ⟨nd, hnd⟩ := Option.isSome_iff_exists.mp hd1
        have hnsmem : ns ∈ g1.getAllNodes := AddressMap.get_mem_getAll hns
        have hndmem : nd ∈ g1.getAllNodes := AddressMap.get_mem_getAll hnd
        have hnsa : ns.address = e.src := AddressMap.get_address hwf1.1 hns
        have hnda : nd.address = e.dst := AddressMap.get_address hwf1.1 hnd
        constructor
        · have h1 := hall1 ns hnsmem
          rw [hnsa] at h1
          rw [hpers2 e.src ns h1]
          rfl
        · have h1 := hall1 nd hndmem
          rw [hnda] at h1
          rw [hpers2 e.dst nd h1]
          rfl
      obtain ⟨msg, hfold3, e, he, e2, hg, hne, hmsg⟩ :=
        consPhase3_error g2 g1.getAllEdges r2 habs3
          (AddressMap.addresses_nodup hwf1.2.1) hend3 hedgesbad
      refine ⟨msg, ?_, Or.inr ⟨e.address, e, e2,
        AddressMap.getAll_get hwf1.2.1 he, hg, Ne.symm hne, hmsg⟩⟩
      unfold Graph.mergeConservative Graph.merge
      rw [hf1]
      dsimp only
      rw [hf2]
      dsimp only
      rw [hfold3]

/-- C7 witness: conservatively merging the concrete one-node one-edge graph
with itself succeeds and keeps exactly one copy of the shared node and of the
shared edge. -/
theorem claim_C7_witness :
    Graph.Wf graphAE ∧
    (∀ n1 ∈ graphAE.getAllNodes, (graphAE.getNode n1.address).getD n1 = n1) ∧
    (∀ e1 ∈ graphAE.getAllEdges, (graphAE.getEdge e1.address).getD e1 = e1) ∧
    ∃ g, Graph.mergeConservative graphAE graphAE = Except.ok g ∧
      (∀ n1 ∈ graphAE.getAllNodes, (graphAE.getNode n1.address).isSome = true →
        g.getAllNodes.countP (fun v => v.address == n1.address) = 1) ∧
      (∀ e1 ∈ graphAE.getAllEdges, (graphAE.getEdge e1.address).isSome = true →
        g.getAllEdges.countP (fun v => v.address == e1.address) = 1) :=
  ⟨by decide, by decide, by decide,
   (claim_C7 Nat Nat).1 graphAE graphAE (by decide) (by decide)
     (by decide) (by decide)⟩
